import Mathlib

/-!
Verification of the Bookfix text-cleanup tool (shallow embedding).

Texts are modelled as `List Char`.  Machine strings are Python `str`
values; the embedding models the ASCII fragment that the program's own
regexes and data operate on: `str.lower`/`str.upper` act on ASCII
letters (via `Char.toLower`/`Char.toUpper`), `str.isdigit` is ASCII
digits, the `re` word class `\w` is ASCII alphanumerics plus
underscore, and line terminators are `\n`, `\r\n`, `\r`.
Python `dict`s are insertion-ordered association lists and `set`s are
insertion-ordered duplicate-free lists (set iteration order is modelled
as insertion order).  File and GUI side effects are modelled by
explicit state fields (save counters, callback-presence flags).
-/

namespace Bookfix

/-- Python whitespace characters recognised by `str.strip`. -/
def isPySpace (c : Char) : Bool :=
  c = ' ' || c = '\t' || c = '\n' || c = '\x0d' || c = '\x0b' || c = '\x0c'

/-- Python `str.strip()`: remove leading and trailing whitespace. -/
def pyStrip (s : List Char) : List Char :=
  ((s.dropWhile isPySpace).reverse.dropWhile isPySpace).reverse

/-- ASCII decimal digit (model of `str.isdigit` character test). -/
def isDigitChar (c : Char) : Bool :=
  '0' ≤ c && c ≤ '9'

/-- ASCII letter. -/
def isLetterChar (c : Char) : Bool :=
  ('a' ≤ c && c ≤ 'z') || ('A' ≤ c && c ≤ 'Z')

/-- Regex word character `\w` (ASCII model): letters, digits, underscore. -/
def isWordChar (c : Char) : Bool :=
  isLetterChar c || isDigitChar c || c = '_'

/-- Lowercase a string (model of `str.lower` on ASCII text). -/
def lowerStr (s : List Char) : List Char :=
  s.map Char.toLower

/-- Uppercase a string (model of `str.upper` on ASCII text). -/
def upperStr (s : List Char) : List Char :=
  s.map Char.toUpper

/-- The substring `s[a:b]` of Python slicing (half-open, clamped). -/
def slice (s : List Char) (a b : Nat) : List Char :=
  (s.drop a).take (b - a)

/-- Splicing `s[:a] + mid + s[b:]`, the string replacement the engines use. -/
def splice (s : List Char) (a b : Nat) (mid : List Char) : List Char :=
  s.take a ++ mid ++ s.drop b

/-- Python `str.splitlines` restricted to the terminators `\n`, `\r\n`, `\r`. -/
def splitlinesAux : List Char → List Char → List (List Char)
  | [], acc => if acc.isEmpty then [] else [acc.reverse]
  | '\x0d' :: '\n' :: rest, acc => acc.reverse :: splitlinesAux rest []
  | '\x0d' :: rest, acc => acc.reverse :: splitlinesAux rest []
  | '\n' :: rest, acc => acc.reverse :: splitlinesAux rest []
  | c :: rest, acc => splitlinesAux rest (c :: acc)

/-- Python `text.splitlines()`. -/
def splitlines (s : List Char) : List (List Char) :=
  splitlinesAux s []

/-- Python `"\n".join(lines)`. -/
def joinLines (ls : List (List Char)) : List Char :=
  (ls.intersperse ['\n']).flatten

/-- The character at index `i`, used for looking left/right of a regex
position; out-of-range reads are `none` (the regex treats them as
non-word, non-class positions). -/
def charAt (s : List Char) (i : Nat) : Option Char :=
  s.get? i

/-- Whether position `i` of `s` holds a word character. -/
def wordAt (s : List Char) (i : Nat) : Bool :=
  match charAt s i with
  | some c => isWordChar c
  | none => false

/-- Regex word boundary `\b` at position `i` of `s` (between `i-1` and `i`). -/
def atWordBoundary (s : List Char) (i : Nat) : Bool :=
  (if i = 0 then false else wordAt s (i - 1)) != wordAt s i

/-!
Generic model of the `re` module's scanning loop (`finditer` / `sub`):
a matcher `m i` reports the length of the match anchored at position
`i` (or `none`); scanning finds the leftmost match at or after the
current position, emits it, and resumes at its end (advancing one
position past an empty match, as `re.sub` does).  All matchers used
below return lengths `≥ 1` that fit inside the text.
-/

variable (m : Nat → Option Nat)

/-- The leftmost match at a position in `[p, len]`: its start and length. -/
def reFindFrom (len p : Nat) : Option (Nat × Nat) :=
  (List.range' p (len + 1 - p)).findSome? fun i => (m i).map fun L => (i, L)

/-- All matches from position `p`, scanning as `re.finditer` does.
`fuel` bounds the recursion; `len + 1` steps always suffice. -/
def reFindAllAux (len : Nat) : Nat → Nat → List (Nat × Nat)
  | 0, _ => []
  | fuel + 1, p =>
    match reFindFrom m len p with
    | none => []
    | some (i, L) => (i, L) :: reFindAllAux len fuel (if L = 0 then i + 1 else i + L)

/-- Spans of all matches of the matcher in a text of length `len`. -/
def reFindAll (len : Nat) : List (Nat × Nat) :=
  reFindAllAux m len (len + 1) 0

/-- One segment of a `re.sub` decomposition: an unmatched gap or a match. -/
inductive Seg where
  | gap (s : List Char)
  | tok (s : List Char)
  deriving Repr, DecidableEq

/-- The original characters a segment covers. -/
def Seg.orig : Seg → List Char
  | .gap s => s
  | .tok s => s

variable (m : Nat → Option Nat)

/-- Decompose `txt` from position `p` into gaps and matches, the way
`re.sub` walks the text.  When fuel runs out the remainder is emitted
as a gap (unreachable with fuel `≥ len + 1 - p`). -/
def scanSegsAux (txt : List Char) : Nat → Nat → List Seg
  | 0, p => [.gap (txt.drop p)]
  | fuel + 1, p =>
    match reFindFrom m txt.length p with
    | none => [.gap (txt.drop p)]
    | some (i, L) =>
      .gap (slice txt p i) :: .tok (slice txt i (i + L)) ::
        scanSegsAux txt fuel (if L = 0 then i + 1 else i + L)

/-- The full `re.sub` decomposition of `txt` for matcher `m`. -/
def scanSegs (txt : List Char) : List Seg :=
  scanSegsAux m txt (txt.length + 1) 0

/-- Rebuild a text from a decomposition, replacing each match with `f`. -/
def subSegs (f : List Char → List Char) (segs : List Seg) : List Char :=
  (segs.map fun sg => match sg with | .gap s => s | .tok s => f s).flatten

/-- `re.sub` with a replacement function: decompose and rebuild. -/
def reSub (m : Nat → Option Nat) (f : List Char → List Char) (txt : List Char) :
    List Char :=
  subSegs f (scanSegs m txt)

/-!
Embedding of `bookfix/processors/roman.py`.
-/

/-- The letter values of `roman_map` in `roman_to_arabic`; characters
outside the map never occur on validated input (the Python code would
raise `KeyError` there), so the model returns 0 for them. -/
def romanLetterVal (c : Char) : Int :=
  match c with
  | 'I' => 1
  | 'V' => 5
  | 'X' => 10
  | 'L' => 50
  | 'C' => 100
  | 'D' => 500
  | 'M' => 1000
  | _ => 0

/-- The right-to-left summation loop of `roman_to_arabic`: walk the
reversed numeral keeping the previous value, adding a letter's value
when it is at least the previous one and subtracting it otherwise. -/
def romanGo : List Char → Int → Int → Int
  | [], _, total => total
  | c :: rest, prev, total =>
    romanGo rest (romanLetterVal c)
      (if prev ≤ romanLetterVal c then total + romanLetterVal c else total - romanLetterVal c)

/-- The `prev` value after the loop has consumed a list (used to chain
segment computations). -/
def lastPrev : List Char → Int → Int
  | [], p => p
  | c :: rest, _ => lastPrev rest (romanLetterVal c)

/-- Language of the regex piece `M{0,3}`. -/
def thousandsOpts : List (List Char) :=
  [[], ['M'], ['M', 'M'], ['M', 'M', 'M']]

/-- Language of the regex piece `(?:CM|CD|D?C{0,3})`: the alternatives
`CM`, `CD`, then the eight strings of `D?C{0,3}`. -/
def hundredsOpts : List (List Char) :=
  [['C', 'M'], ['C', 'D'],
   [], ['C'], ['C', 'C'], ['C', 'C', 'C'],
   ['D'], ['D', 'C'], ['D', 'C', 'C'], ['D', 'C', 'C', 'C']]

/-- Language of the regex piece `(?:XC|XL|L?X{0,3})`. -/
def tensOpts : List (List Char) :=
  [['X', 'C'], ['X', 'L'],
   [], ['X'], ['X', 'X'], ['X', 'X', 'X'],
   ['L'], ['L', 'X'], ['L', 'X', 'X'], ['L', 'X', 'X', 'X']]

/-- Language of the regex piece `(?:IX|IV|V?I{0,3})`. -/
def unitsOpts : List (List Char) :=
  [['I', 'X'], ['I', 'V'],
   [], ['I'], ['I', 'I'], ['I', 'I', 'I'],
   ['V'], ['V', 'I'], ['V', 'I', 'I'], ['V', 'I', 'I', 'I']]

/-- `re.fullmatch` of the strict validator regex
`M{0,3}(?:CM|CD|D?C{0,3})(?:XC|XL|L?X{0,3})(?:IX|IV|V?I{0,3})`:
the string is a concatenation of one word from each piece's language. -/
def romanValidates (s : List Char) : Bool :=
  thousandsOpts.any fun a => hundredsOpts.any fun b =>
    tensOpts.any fun c => unitsOpts.any fun d => s == a ++ b ++ c ++ d

/-- `roman_to_arabic`: uppercase, reject a bare I, validate, then run
the right-to-left subtractive summation. `none` models Python `None`. -/
def roman_to_arabic (s : List Char) : Option Int :=
  let r := upperStr s
  if r = ['I'] then none
  else if romanValidates r then some (romanGo r.reverse 0 0) else none

/-- The canonical numeral of the hundreds digit (spec side: the value
of each word of the hundreds alternation). -/
def hundredsNumeral : Nat → List Char
  | 1 => ['C']
  | 2 => ['C', 'C']
  | 3 => ['C', 'C', 'C']
  | 4 => ['C', 'D']
  | 5 => ['D']
  | 6 => ['D', 'C']
  | 7 => ['D', 'C', 'C']
  | 8 => ['D', 'C', 'C', 'C']
  | 9 => ['C', 'M']
  | _ => []

/-- The canonical numeral of the tens digit. -/
def tensNumeral : Nat → List Char
  | 1 => ['X']
  | 2 => ['X', 'X']
  | 3 => ['X', 'X', 'X']
  | 4 => ['X', 'L']
  | 5 => ['L']
  | 6 => ['L', 'X']
  | 7 => ['L', 'X', 'X']
  | 8 => ['L', 'X', 'X', 'X']
  | 9 => ['X', 'C']
  | _ => []

/-- The canonical numeral of the units digit. -/
def unitsNumeral : Nat → List Char
  | 1 => ['I']
  | 2 => ['I', 'I']
  | 3 => ['I', 'I', 'I']
  | 4 => ['I', 'V']
  | 5 => ['V']
  | 6 => ['V', 'I']
  | 7 => ['V', 'I', 'I']
  | 8 => ['V', 'I', 'I', 'I']
  | 9 => ['I', 'X']
  | _ => []

/-!
Embedding of `bookfix/processors/pagination.py`.
-/

/-- Python `s.endswith(suf)`. -/
def endsWith (suf s : List Char) : Bool :=
  suf.length ≤ s.length && s.drop (s.length - suf.length) == suf

/-- Python `stripped.isdigit()` on a string (ASCII digits model):
nonempty and all digits. -/
def pyIsdigit (s : List Char) : Bool :=
  !s.isEmpty && s.all isDigitChar

/-- Truthy filepath whose lowercased form ends with the suffix, the
guard `ctx.filepath and ctx.filepath.lower().endswith(suf)`. -/
def pathEndsWith (fp : Option (List Char)) (suf : List Char) : Bool :=
  match fp with
  | some l => !l.isEmpty && endsWith suf (lowerStr l)
  | none => false

/-- The guard of the HTML branch of `remove_pagination`. -/
def isHtmlPath (fp : Option (List Char)) : Bool :=
  pathEndsWith fp ('.' :: 'x' :: 'h' :: 't' :: 'm' :: 'l' :: []) ||
  pathEndsWith fp ('.' :: 'h' :: 't' :: 'm' :: 'l' :: [])

/-- The guard of the `.txt` branch of `remove_pagination`. -/
def isTxtPath (fp : Option (List Char)) : Bool :=
  pathEndsWith fp ('.' :: 't' :: 'x' :: 't' :: [])

/-- Result of pagination removal: the new text and the entries of the
`pagination_log` list. -/
structure PaginationResult where
  text : List Char
  removedLog : List (List Char)
  deriving Repr, DecidableEq

/-- `remove_pagination` on non-HTML filepaths.  The `.html`/`.xhtml`
branch parses with BeautifulSoup and is outside this model; on every
other input the function either takes the `.txt` branch (drop each
line whose stripped content is purely digits, log it as removed, join
the kept lines with a newline) or falls through leaving the text
unchanged. -/
def remove_pagination_nonhtml (fp : Option (List Char)) (text : List Char) :
    PaginationResult :=
  if isTxtPath fp then
    let lines := splitlines text
    let removed := lines.filter fun l => pyIsdigit (pyStrip l)
    let kept := lines.filter fun l => !pyIsdigit (pyStrip l)
    ⟨joinLines kept,
     removed.map fun l => ('R' :: 'e' :: 'm' :: 'o' :: 'v' :: 'e' :: 'd' :: ':' :: ' ' :: []) ++ l⟩
  else
    ⟨text, []⟩

/-!
Embedding of `bookfix/processors/numbered.py`.
-/

/-- Length of the maximal digit run starting at position `i`. -/
def digitRunLen (s : List Char) (i : Nat) : Nat :=
  ((s.drop i).takeWhile isDigitChar).length

/-- Matcher of the pattern `\d{3,}` anchored at `i`: a greedy run of
at least three digits. -/
def numMatchAt (s : List Char) (i : Nat) : Option Nat :=
  if 3 ≤ digitRunLen s i then some (digitRunLen s i) else none

/-- The `(start, end)` spans `\d{3,}` finds in one line. -/
def lineNumberSpans (line : List Char) : List (Nat × Nat) :=
  (reFindAll (numMatchAt line) line.length).map fun sp => (sp.1, sp.1 + sp.2)

/-- `find_numbered_lines`: the `(line_number, line_content, match_spans)`
triples of the lines that contain a 3-or-more digit run. -/
def find_numbered_lines (text : List Char) :
    List (Nat × List Char × List (Nat × Nat)) :=
  (splitlines text).enum.filterMap fun e =>
    if (lineNumberSpans e.2).isEmpty then none
    else some (e.1, e.2, lineNumberSpans e.2)

/-- The update loop of `apply_edits`: each edit replaces the line at
its line number when that number is in range. -/
def applyLineEdits (edits : List (Nat × List Char)) (ls : List (List Char)) :
    List (List Char) :=
  edits.foldl (fun acc e => if e.1 < acc.length then acc.set e.1 e.2 else acc) ls

/-- `apply_edits`: a no-op on an empty edit map, otherwise split the
text into lines, replace the edited line numbers, and rejoin. -/
def apply_edits (edits : List (Nat × List Char)) (text : List Char) : List Char :=
  if edits.isEmpty then text
  else joinLines (applyLineEdits edits (splitlines text))

/-!
Embedding of `bookfix/processors/choices.py`
(`InteractiveChoiceProcessor`).
-/

/-- Matcher of the regex `\b` + `re.escape(w)` + `\b` anchored at `i`,
with optional `re.IGNORECASE`.  An empty `w` is treated as matching
nowhere (the engines' words come from configuration content lines;
Python would find zero-width matches for an empty word). -/
def wordMatchAt (ci : Bool) (w txt : List Char) (i : Nat) : Option Nat :=
  if !w.isEmpty && i + w.length ≤ txt.length
      && (if ci then lowerStr (slice txt i (i + w.length)) == lowerStr w
          else slice txt i (i + w.length) == w)
      && atWordBoundary txt i && atWordBoundary txt (i + w.length)
  then some w.length else none

/-- `re.finditer` spans of `\bw\b` in `txt` (`ci` = `re.IGNORECASE`). -/
def findWordMatches (ci : Bool) (w txt : List Char) : List (Nat × Nat) :=
  (reFindAll (wordMatchAt ci w txt) txt.length).map fun sp => (sp.1, sp.1 + sp.2)

/-- The state of `InteractiveChoiceProcessor` (plus the parts of the
context it reads): `choicesList` is `ctx.choices` as an ordered map,
`text` mirrors both `self.current_text` and `ctx.text`,
`replacementsLogged` counts the `debug.txt` audit lines written. -/
structure ChoiceState where
  choicesList : List (List Char × List (List Char))
  text : List Char
  word : Option (List Char)
  matchList : List (Nat × Nat)
  matchIdx : Nat
  processedWords : Nat
  replacementsLogged : Nat
  deriving Repr, DecidableEq

/-- `_start_word_processing`: pick the word at index `processed_words`,
scan the live text for its case-insensitive whole-word matches, and
either suspend on the first match or (no matches) finish the word and
fall through to the next one.  `fuel` bounds the word-skipping
recursion; one unit per remaining word suffices. -/
def startWordProcessing : Nat → ChoiceState → ChoiceState
  | 0, s => s
  | fuel + 1, s =>
    if h : s.processedWords < s.choicesList.length then
      let w := (s.choicesList.get ⟨s.processedWords, h⟩).1
      let ms := findWordMatches true w s.text
      let s' := { s with word := some w, matchIdx := 0, matchList := ms }
      if ms.isEmpty then
        let s'' := { s' with processedWords := s'.processedWords + 1 }
        if s''.processedWords < s''.choicesList.length then startWordProcessing fuel s''
        else s''
      else s'
    else s

/-- `_finish_current_word`: count the word done; `true` means another
word was started, `false` means the engine completed. -/
def finishCurrentWord (fuel : Nat) (s : ChoiceState) : Bool × ChoiceState :=
  let s' := { s with processedWords := s.processedWords + 1 }
  if s'.processedWords < s'.choicesList.length then (true, startWordProcessing fuel s')
  else (false, s')

/-- The next-match-index loop of `handle_choice`: the index of the
first match whose start is at or after `e`, or the list length when no
match qualifies. -/
def nextMatchIdx (e : Nat) (ms : List (Nat × Nat)) : Nat :=
  match ms.findIdx? (fun msp => e ≤ msp.1) with
  | some k => k
  | none => ms.length

/-- `handle_choice`: on a stale index finish the word; if the selected
option case-insensitively equals the matched substring drop the match
and stay at the same index; otherwise splice the option in at the
recorded span, re-scan the whole new text, and continue at the first
new match starting at or after the replaced match's original end. -/
def handle_choice (fuel : Nat) (choice : List Char) (s : ChoiceState) :
    Bool × ChoiceState :=
  if s.matchList.isEmpty || s.matchList.length ≤ s.matchIdx then
    finishCurrentWord fuel s
  else
    let sp := s.matchList.getD s.matchIdx (0, 0)
    let matched := slice s.text sp.1 sp.2
    if lowerStr choice = lowerStr matched then
      let ms' := s.matchList.eraseIdx s.matchIdx
      let s' := { s with matchList := ms' }
      if s'.matchIdx < ms'.length then (true, s')
      else finishCurrentWord fuel s'
    else
      let t' := splice s.text sp.1 sp.2 choice
      let ms' := findWordMatches true (s.word.getD []) t'
      let ni := nextMatchIdx sp.2 ms'
      let s' := { s with
        text := t'
        matchList := ms'
        matchIdx := ni
        replacementsLogged := s.replacementsLogged + 1 }
      if ni < ms'.length then (true, s')
      else finishCurrentWord fuel s'

/-- `process_choices`: reset state, then start on the first word
(an empty choices map completes immediately). -/
def processChoicesStart (choicesList : List (List Char × List (List Char)))
    (text : List Char) : ChoiceState :=
  let s0 : ChoiceState := ⟨choicesList, text, none, [], 0, 0, 0⟩
  if choicesList.length = 0 then s0
  else startWordProcessing (choicesList.length + 1) s0

/-- The choices map of the claimed scenario. -/
def redChoices : List (List Char × List (List Char)) :=
  [(("red").data, [("blue").data, ("red").data])]

/-!
Embedding of `bookfix/processors/allcaps.py` (`AllCapsProcessor`).
-/

/-- ASCII uppercase letter, the class `[A-Z]`. -/
def isUpperLetter (c : Char) : Bool :=
  'A' ≤ c && c ≤ 'Z'

/-- The class `[A-Z ]` of the sequence regex. -/
def isUpperOrSpace (c : Char) : Bool :=
  isUpperLetter c || c = ' '

/-- Matcher of the sequence regex `\b[A-Z](?:[A-Z ]*[A-Z])\b` anchored
at `i`: a leading boundary and uppercase letter, then (greedy with
backtracking over the final letter and trailing `\b`) the longest
prefix of the `[A-Z ]` run that has length at least 2, ends in an
uppercase letter and is followed by a word boundary. -/
def capsMatchAt (txt : List Char) (i : Nat) : Option Nat :=
  if atWordBoundary txt i && isUpperLetter (txt.getD i ' ') then
    let run := ((txt.drop i).takeWhile isUpperOrSpace).length
    (List.range' 2 (run - 1)).reverse.find? fun L =>
      isUpperLetter (txt.getD (i + L - 1) ' ') && atWordBoundary txt (i + L)
  else none

/-- The all-caps sequences detected in the snapshot text, as
`(start, matched text)` pairs (`all_caps_matches_original`). -/
def findCapsSequences (txt : List Char) : List (Nat × List Char) :=
  (reFindAll (capsMatchAt txt) txt.length).map fun sp => (sp.1, slice txt sp.1 (sp.1 + sp.2))

/-- Python `set.add`: append when absent (insertion-ordered model). -/
def setAdd {α : Type} [DecidableEq α] (x : α) (l : List α) : List α :=
  if x ∈ l then l else l ++ [x]

/-- Whole-word `re.sub` of `\b` + `re.escape(w)` + `\b` (case-sensitive)
with a literal replacement. -/
def wordSub (w repl txt : List Char) : List Char :=
  reSub (wordMatchAt false w txt) (fun _ => repl) txt

/-- The pre-pass of `process_all_caps_sequences`: for every persisted
sequence, lowercase its whole-word occurrences in the text. -/
def capsPrePass (lowercaseSet : List (List Char)) (text : List Char) : List Char :=
  lowercaseSet.foldl (fun t w => wordSub w (lowerStr w) t) text

/-- The state of `AllCapsProcessor` plus the context fields it touches.
`savedHistory` records each `save_caps_data_file` call with the sets it
wrote; `hasCallback` models whether `text_update_callback` is set. -/
structure CapsState where
  text : List Char
  ignoreSet : List (List Char)
  lowercaseSet : List (List Char)
  matchesOrig : List (Nat × List Char)
  decided : List (List Char)
  loweredSpans : List (Nat × Nat)
  matchIdx : Nat
  currentSeq : Option (List Char)
  currentSpan : Option (Nat × Nat)
  hasCallback : Bool
  savedHistory : List (List (List Char) × List (List Char))
  deriving Repr, DecidableEq

/-- The loop body of `_process_next_sequence`: advance over sequences
whose text is in the ignore set or already decided; stop at the first
remaining one, recording it as current (or run past the end, leaving
the previous current sequence in place, as the Python loop does).
`fuel` bounds the recursion. -/
def processNextSeqAux : Nat → CapsState → CapsState
  | 0, s => s
  | fuel + 1, s =>
    if h : s.matchIdx < s.matchesOrig.length then
      let m := s.matchesOrig.get ⟨s.matchIdx, h⟩
      if m.2 ∈ s.ignoreSet ∨ m.2 ∈ s.decided then
        processNextSeqAux fuel { s with matchIdx := s.matchIdx + 1 }
      else
        { s with currentSeq := some m.2, currentSpan := some (m.1, m.1 + m.2.length) }
    else s

/-- `_process_next_sequence` proper; one unit of fuel per remaining
snapshot entry is exactly the number of loop iterations possible. -/
def processNextSeq (s : CapsState) : CapsState :=
  processNextSeqAux (s.matchesOrig.length - s.matchIdx) s

/-- The tail of `handle_caps_choice`: advance the index, look for the
next sequence, and report whether any sequences remain. -/
def capsAdvance (s : CapsState) : Bool × CapsState :=
  let s' := processNextSeq { s with matchIdx := s.matchIdx + 1 }
  (decide (s'.matchIdx < s'.matchesOrig.length), s')

/-- `handle_caps_choice` on the four recognised choices (and the
warn-and-return branch for anything else): Yes lowercases the current
occurrence (when a text callback is attached, as in the code) and then
bulk-lowercases every remaining whole-word occurrence; No marks
decided; Add to Ignore persists; Auto Lowercase persists and
bulk-lowercases every sequence in the lowercase set. -/
def handleCapsChoice (choice : List Char) (s : CapsState) : Bool × CapsState :=
  match s.currentSeq with
  | none => (false, s)
  | some seq =>
    let sp := s.currentSpan.getD (0, 0)
    let originalSpan := (s.matchesOrig.find? fun m =>
      m.2 == seq && !(s.loweredSpans.contains (m.1, m.1 + m.2.length))).map
        fun m => (m.1, m.1 + m.2.length)
    if lowerStr choice ∈ [("y").data, ("yes").data, ("0").data] then
      let s1 := if s.hasCallback then
          { s with text := splice s.text sp.1 sp.2 (lowerStr seq) } else s
      let s2 := { s1 with
        loweredSpans := match originalSpan with
          | some osp => setAdd osp s1.loweredSpans
          | none => s1.loweredSpans
        decided := setAdd seq s1.decided }
      capsAdvance { s2 with text := wordSub seq (lowerStr seq) s2.text }
    else if lowerStr choice ∈ [("n").data, ("no").data, ("1").data] then
      capsAdvance { s with decided := setAdd seq s.decided }
    else if lowerStr choice ∈ [("a").data, ("add").data, ("2").data] then
      let s1 := { s with ignoreSet := setAdd seq s.ignoreSet }
      let s2 := { s1 with savedHistory :=
        s1.savedHistory ++ [(s1.ignoreSet, s1.lowercaseSet)] }
      capsAdvance { s2 with decided := setAdd seq s2.decided }
    else if lowerStr choice ∈ [("i").data, ("auto").data, ("3").data] then
      let s1 := { s with lowercaseSet := setAdd seq s.lowercaseSet }
      let s2 := { s1 with savedHistory :=
        s1.savedHistory ++ [(s1.ignoreSet, s1.lowercaseSet)] }
      let s3 := { s2 with text := capsPrePass s2.lowercaseSet s2.text }
      let s4 := { s3 with
        loweredSpans := s3.matchesOrig.foldl
          (fun acc m => if m.2 == seq then setAdd (m.1, m.1 + m.2.length) acc else acc)
          s3.loweredSpans
        decided := setAdd seq s3.decided }
      capsAdvance s4
    else (true, s)

/-- `process_all_caps_sequences`: snapshot detection on the incoming
text, reset the tracking sets, run the lowercase pre-pass, then look
for the first sequence to present. -/
def processAllCapsStart (text : List Char) (ignoreSet lowercaseSet : List (List Char))
    (hasCallback : Bool) : CapsState :=
  processNextSeq
    { text := capsPrePass lowercaseSet text
      ignoreSet := ignoreSet
      lowercaseSet := lowercaseSet
      matchesOrig := findCapsSequences text
      decided := []
      loweredSpans := []
      matchIdx := 0
      currentSeq := none
      currentSpan := none
      hasCallback := hasCallback
      savedHistory := [] }

/-- A run of the engine: fold the user's successive choices through
`handleCapsChoice`. -/
def runCapsTrace (cs : List (List Char)) (s : CapsState) : CapsState :=
  cs.foldl (fun st c => (handleCapsChoice c st).2) s

/-- The option strings `handle_caps_choice` recognises (lowercased). -/
def recognizedCapsChoices : List (List Char) :=
  [("y").data, ("yes").data, ("0").data, ("n").data, ("no").data, ("1").data,
   ("a").data, ("add").data, ("2").data, ("i").data, ("auto").data, ("3").data]

/-!
Embedding of `convert_roman_numerals` in
`bookfix/processors/roman.py` (the substitution pass).
-/

/-- A letter of the detection pattern's Roman alphabet `[MDCLXVI]`. -/
def isRomanChar (c : Char) : Bool :=
  c = 'M' || c = 'D' || c = 'C' || c = 'L' || c = 'X' || c = 'V' || c = 'I'

/-- The guard class `[A-Za-z&.\-+:;/\\]` of the lookbehind/lookahead. -/
def inGuardClass (c : Char) : Bool :=
  isLetterChar c || c = '&' || c = '.' || c = '-' || c = '+' || c = ':' ||
    c = ';' || c = '/' || c = '\\'

/-- Whether the character at `i` (if any) is in the guard class. -/
def guardAt (txt : List Char) (i : Nat) : Bool :=
  match txt.get? i with
  | some c => inGuardClass c
  | none => false

/-- Both trailing zero-width checks of the pattern at position `j`:
the word boundary `\b` and the lookahead `(?![A-Za-z&.\-+:;/\\])`. -/
def romanEndOk (txt : List Char) (j : Nat) : Bool :=
  atWordBoundary txt j && !guardAt txt j

/-- Matcher of the detection regex
`(?<![A-Za-z&.\-+:;/\\])\b([VXLCDM]|[MDCLXVI]{2,})\b(?![A-Za-z&.\-+:;/\\])`
anchored at `i`.  The first alternative is a single letter from
`[VXLCDM]` (a lone I never matches); the second is the maximal run of
Roman letters of length at least 2 — any shorter backtracked run would
end inside the run, where the trailing `\b` fails, so only the maximal
run can succeed. -/
def romanMatchAt (txt : List Char) (i : Nat) : Option Nat :=
  if (i = 0 || !guardAt txt (i - 1)) && atWordBoundary txt i then
    if (txt.getD i ' ' = 'V' || txt.getD i ' ' = 'X' || txt.getD i ' ' = 'L' ||
        txt.getD i ' ' = 'C' || txt.getD i ' ' = 'D' || txt.getD i ' ' = 'M')
        && romanEndOk txt (i + 1) then
      some 1
    else
      let run := ((txt.drop i).takeWhile isRomanChar).length
      if 2 ≤ run && romanEndOk txt (i + run) then some run else none
  else none

/-- Decimal representation of a positive value, Python `str(val)`. -/
def intDecimal (v : Int) : List Char :=
  Nat.toDigits 10 v.toNat

/-- The per-match policy of `_replace`: an ignored token (uppercased
membership in `roman_ignore_set`) is kept; a token converting to a
positive integer becomes its decimal string; a failed conversion keeps
the token. -/
def romanReplacePolicy (ign : List (List Char)) (tok : List Char) : List Char :=
  if upperStr tok ∈ ign then tok
  else
    match roman_to_arabic tok with
    | some v => if 0 < v then intDecimal v else tok
    | none => tok

/-- `convert_roman_numerals`: scan the text with the detection regex
and rewrite each match by the policy. -/
def convert_roman_numerals (ign : List (List Char)) (txt : List Char) : List Char :=
  reSub (romanMatchAt txt) (romanReplacePolicy ign) txt

/-!
Embedding of `bookfix/datafile.py`.  A data file is its `readlines()`
result: a list of lines, each usually ending in a newline character.
-/

/-- The section marker lines of the data file format. -/
def choiceMarker : List Char := ("# CHOICE").data

/-- Marker of the REPLACE section. -/
def replaceMarker : List Char := ("# REPLACE").data

/-- Marker of the PERIODS section. -/
def periodsMarker : List Char := ("# PERIODS").data

/-- Marker of the CAP_IGNORE section. -/
def ignoreMarker : List Char := ("# CAP_IGNORE").data

/-- Marker of the UPPER_TO_LOWER section. -/
def lowercaseMarker : List Char := ("# UPPER_TO_LOWER").data

/-- Marker of the ROMAN_IGNORE section. -/
def romanIgnoreMarker : List Char := ("# ROMAN_IGNORE").data

/-- Marker of the DEFAULT_FILE_DIR section. -/
def defaultDirMarker : List Char := ("# DEFAULT_FILE_DIR").data

/-- `ALL_SECTION_MARKERS`. -/
def allSectionMarkers : List (List Char) :=
  [choiceMarker, replaceMarker, periodsMarker, ignoreMarker,
   lowercaseMarker, romanIgnoreMarker, defaultDirMarker]

/-- The characters of the `lstrip` call that removes a leading BOM
(U+FEFF), zero-width space (U+200B) or no-break space (U+00A0). -/
def isBomChar (c : Char) : Bool :=
  c = '\uFEFF' || c = '\u200B' || c = '\u00A0'

/-- The `lstrip` of those characters applied after `strip()`. -/
def stripBom (s : List Char) : List Char :=
  s.dropWhile isBomChar

/-- The section a parser is currently inside. -/
inductive SectionTag where
  | choice | replAce | periods | ignore | lowercase | romanIgnore | defaultDir
  deriving Repr, DecidableEq

/-- The marker dispatch of `load_data_file` (all seven sections). -/
def markerTagLoad (s : List Char) : Option SectionTag :=
  if s = choiceMarker then some .choice
  else if s = replaceMarker then some .replAce
  else if s = periodsMarker then some .periods
  else if s = ignoreMarker then some .ignore
  else if s = lowercaseMarker then some .lowercase
  else if s = romanIgnoreMarker then some .romanIgnore
  else if s = defaultDirMarker then some .defaultDir
  else none

/-- The marker-to-name dictionary of the save routines, whose `.get`
returns `None` for `# ROMAN_IGNORE` (absent from the dictionary). -/
def markerTagSave (s : List Char) : Option SectionTag :=
  if s = choiceMarker then some .choice
  else if s = replaceMarker then some .replAce
  else if s = periodsMarker then some .periods
  else if s = ignoreMarker then some .ignore
  else if s = lowercaseMarker then some .lowercase
  else if s = defaultDirMarker then some .defaultDir
  else none

/-- Python `s.split(sep)` for a nonempty separator (fuel-bounded;
`s.length + 1` steps always suffice). -/
def pySplitAux (sep : List Char) : Nat → List Char → List Char → List (List Char)
  | 0, s, acc => [acc.reverse ++ s]
  | _ + 1, [], acc => [acc.reverse]
  | fuel + 1, c :: rest, acc =>
    if (c :: rest).take sep.length = sep then
      acc.reverse :: pySplitAux sep fuel ((c :: rest).drop sep.length) []
    else pySplitAux sep fuel rest (c :: acc)

/-- Python `s.split(sep)`. -/
def pySplit (sep s : List Char) : List (List Char) :=
  pySplitAux sep (s.length + 1) s []

/-- Ordered-dict assignment `d[k] = v`: overwrite the entry in place
when the key is present (keys are unique by construction), else
append. -/
def dictInsert {α β : Type} [DecidableEq α] (k : α) (v : β) :
    List (α × β) → List (α × β)
  | [] => [(k, v)]
  | p :: rest => if p.1 = k then (k, v) :: rest else p :: dictInsert k v rest

/-- Dictionary lookup. -/
def dictLookup {α β : Type} [DecidableEq α] (k : α) (l : List (α × β)) : Option β :=
  (l.find? fun p => p.1 = k).map Prod.snd

/-- The configuration `load_data_file` builds. -/
structure LoadedConfig where
  choices : List (List Char × List (List Char))
  replacements : List (List Char × List Char)
  periods : List (List Char)
  ignoreSet : List (List Char)
  lowercaseSet : List (List Char)
  romanIgnoreSet : List (List Char)
  defaultDir : Option (List Char)
  deriving Repr, DecidableEq

/-- The reset at the top of `load_data_file`. -/
def emptyConfig : LoadedConfig :=
  ⟨[], [], [], [], [], [], none⟩

/-- One iteration of the parsing loop of `load_data_file`: recognise a
marker, or process a nonempty non-comment content line according to
the current section.  `isDir` is the filesystem oracle behind
`Path(...).is_dir()`. -/
def parseLine (isDir : List Char → Bool)
    (st : Option SectionTag × LoadedConfig) (line : List Char) :
    Option SectionTag × LoadedConfig :=
  let cur := st.1
  let cfg := st.2
  let stripped := stripBom (pyStrip line)
  if stripped ∈ allSectionMarkers then (markerTagLoad stripped, cfg)
  else
    match cur with
    | none => (cur, cfg)
    | some tag =>
      if !stripped.isEmpty && !(stripped.take 1 == ['#']) then
        match tag with
        | .choice =>
          let parts := pySplit ('-' :: '>' :: []) stripped
          if parts.length = 2 then
            let w := pyStrip (parts.getD 0 [])
            let opts := (pySplit [';'] (parts.getD 1 [])).map pyStrip
            (cur, { cfg with choices := dictInsert w opts cfg.choices })
          else (cur, cfg)
        | .replAce =>
          let parts := pySplit ('-' :: '>' :: []) stripped
          if parts.length = 2 then
            let old := pyStrip (parts.getD 0 [])
            let nw := pyStrip (parts.getD 1 [])
            (cur, { cfg with replacements := dictInsert old nw cfg.replacements })
          else (cur, cfg)
        | .periods => (cur, { cfg with periods := setAdd stripped cfg.periods })
        | .ignore => (cur, { cfg with ignoreSet := setAdd stripped cfg.ignoreSet })
        | .lowercase =>
          (cur, { cfg with lowercaseSet := setAdd stripped cfg.lowercaseSet })
        | .romanIgnore =>
          let up := upperStr stripped
          (cur, { cfg with romanIgnoreSet := setAdd up cfg.romanIgnoreSet })
        | .defaultDir =>
          if cfg.defaultDir = none ∧ isDir stripped then
            (cur, { cfg with defaultDir := some stripped })
          else (cur, cfg)
      else (cur, cfg)

/-- The parsing loop of `load_data_file` over all lines. -/
def parseDataLines (isDir : List Char → Bool) (lines : List (List Char)) :
    LoadedConfig :=
  (lines.foldl (parseLine isDir) (none, emptyConfig)).2

/-- The `except` handler of `load_data_file`: its comment says
"Ensure sets/dicts are empty in case of error", and it resets the
choices, replacements, periods, ignore and lowercase collections and
the default directory — but not `roman_ignore_set`. -/
def loadExceptReset (cfg : LoadedConfig) : LoadedConfig :=
  { cfg with
    choices := []
    replacements := []
    periods := []
    ignoreSet := []
    lowercaseSet := []
    defaultDir := none }

/-- `load_data_file`: a missing file yields the fresh empty
configuration; otherwise the lines are parsed; `failAfter = some k`
models an exception raised while processing line `k` (the first `k`
lines were fully processed, the raising line had no effect), after
which the `except` handler runs. -/
def load_data_file (isDir : List Char → Bool) (file : Option (List (List Char)))
    (failAfter : Option Nat) : LoadedConfig :=
  match file with
  | none => emptyConfig
  | some lines =>
    match failAfter with
    | none => parseDataLines isDir lines
    | some k => loadExceptReset (parseDataLines isDir (lines.take k))

/-- Strict lexicographic order on strings by code point, Python `<`. -/
def strLt : List Char → List Char → Bool
  | [], [] => false
  | [], _ :: _ => true
  | _ :: _, [] => false
  | c :: cs, d :: ds => c < d || (c = d && strLt cs ds)

/-- Insert into a sorted list, after any equal elements. -/
def insertSorted (x : List Char) : List (List Char) → List (List Char)
  | [] => [x]
  | y :: ys => if strLt x y then x :: y :: ys else y :: insertSorted x ys

/-- Python `sorted(list(xs))`: stable sort by code-point order,
modelled by insertion sort. -/
def sortStrings (l : List (List Char)) : List (List Char) :=
  l.foldr insertSorted []

/-- Recording the currently open section's line range when a marker or
the end of file is reached (`section_indices[current_section_name] =
(start, i)` under its guard). -/
def scanFlush (acc : List (SectionTag × (Nat × Nat))) (curN : Option SectionTag)
    (curS : Option Nat) (i : Nat) : List (SectionTag × (Nat × Nat)) :=
  match curN, curS with
  | some nm, some sidx => dictInsert nm (sidx, i) acc
  | _, _ => acc

/-- The boundary-finding loop shared by the save routines (strip,
BOM-strip, record the previous section's line range at each marker,
flush the last open section at end of file). -/
def scanIndicesAux : List (List Char) → Nat → List (SectionTag × (Nat × Nat)) →
    Option SectionTag → Option Nat → List (SectionTag × (Nat × Nat))
  | [], i, acc, curN, curS => scanFlush acc curN curS i
  | line :: rest, i, acc, curN, curS =>
    let stripped := stripBom (pyStrip line)
    if stripped ∈ allSectionMarkers then
      scanIndicesAux rest (i + 1) (scanFlush acc curN curS i)
        (markerTagSave stripped) (some (i + 1))
    else scanIndicesAux rest (i + 1) acc curN curS

/-- `section_indices` as computed by `save_caps_data_file`. -/
def findSectionIndices (lines : List (List Char)) : List (SectionTag × (Nat × Nat)) :=
  scanIndicesAux lines 0 [] none none

/-- The reconstruction loop of `save_caps_data_file`: walk the lines by
index; at a recognised target marker copy the marker line, emit the
freshly serialized content and jump to the recorded range end;
otherwise copy the line.  (Note: this loop strips whitespace only, not
BOM characters.)  `fuel` bounds the loop; `lines.length + 1` steps
suffice whenever the recorded range ends lie beyond the triggering
marker, which the scan guarantees for real files. -/
def saveRewriteAux (lines igc lcc : List (List Char))
    (idxs : List (SectionTag × (Nat × Nat))) :
    Nat → Nat → List (List Char) → Bool → Bool →
    List (List Char) × Bool × Bool
  | 0, _, acc, hi, hl => (acc, hi, hl)
  | fuel + 1, i, acc, hi, hl =>
    match lines.get? i with
    | none => (acc, hi, hl)
    | some line =>
      let stripped := pyStrip line
      if stripped = ignoreMarker ∧ (dictLookup SectionTag.ignore idxs).isSome then
        saveRewriteAux lines igc lcc idxs fuel
          ((dictLookup SectionTag.ignore idxs).getD (0, 0)).2
          (acc ++ line :: igc) true hl
      else if stripped = lowercaseMarker ∧
          (dictLookup SectionTag.lowercase idxs).isSome then
        saveRewriteAux lines igc lcc idxs fuel
          ((dictLookup SectionTag.lowercase idxs).getD (0, 0)).2
          (acc ++ line :: lcc) hi true
      else saveRewriteAux lines igc lcc idxs fuel (i + 1) (acc ++ [line]) hi hl

/-- The append-if-missing step at the end of `save_caps_data_file`
(one target section). -/
def appendSection (handled : Bool) (content : List (List Char))
    (marker : List Char) (contentLines : List (List Char))
    (newLines : List (List Char)) : List (List Char) :=
  if !handled ∧ content ≠ [] then
    (if newLines ≠ [] ∧ pyStrip (newLines.getLastD []) ≠ [] then
      newLines ++ [['\n']] else newLines) ++ (marker ++ ['\n']) :: contentLines
  else newLines

/-- `save_caps_data_file` as a pure function from the existing file's
lines (its `readlines()`) to the lines it writes back. -/
def save_caps_data_file (ignoreSet lowercaseSet : List (List Char))
    (lines : List (List Char)) : List (List Char) :=
  let idxs := findSectionIndices lines
  let igc := (sortStrings ignoreSet).map fun sq => sq ++ ['\n']
  let lcc := (sortStrings lowercaseSet).map fun sq => sq ++ ['\n']
  let res := saveRewriteAux lines igc lcc idxs (lines.length + 1) 0 [] false false
  appendSection res.2.2 lowercaseSet lowercaseMarker lcc
    (appendSection res.2.1 ignoreSet ignoreMarker igc res.1)

lemma reFindFrom_ge {m : Nat → Option Nat} {len p i L : Nat}
    (h : reFindFrom m len p = some (i, L)) : p ≤ i := by
  unfold reFindFrom at h
  obtain ⟨j, hmem, hj⟩ := List.exists_of_findSome?_eq_some h
  rcases Option.map_eq_some'.mp hj with ⟨L', -, hL⟩
  cases hL
  exact (List.mem_range'_1.mp hmem).1

lemma reFindFrom_isSome {m : Nat → Option Nat} {len p i L : Nat}
    (h : reFindFrom m len p = some (i, L)) : m i = some L := by
  unfold reFindFrom at h
  obtain ⟨j, hmem, hj⟩ := List.exists_of_findSome?_eq_some h
  rcases Option.map_eq_some'.mp hj with ⟨L', hm, hL⟩
  cases hL
  exact hm

lemma slice_append_drop {p i : Nat} (txt : List Char) (h : p ≤ i) :
    slice txt p i ++ txt.drop i = txt.drop p := by
  unfold slice
  have : txt.drop i = (txt.drop p).drop (i - p) := by
    rw [List.drop_drop]
    congr 1
    omega
  rw [this, List.take_append_drop]

lemma scanSegsAux_reconstruct {m : Nat → Option Nat}
    (hm : ∀ i L, m i = some L → 1 ≤ L) (txt : List Char) :
    ∀ fuel p, ((scanSegsAux m txt fuel p).map Seg.orig).flatten = txt.drop p := by
  intro fuel
  induction fuel with
  | zero => intro p; simp [scanSegsAux, Seg.orig]
  | succ fuel ih =>
    intro p
    unfold scanSegsAux
    cases hfind : reFindFrom m txt.length p with
    | none => simp [Seg.orig]
    | some iL =>
      obtain ⟨i, L⟩ := iL
      have hpi : p ≤ i := reFindFrom_ge hfind
      have hL : 1 ≤ L := hm i L (reFindFrom_isSome hfind)
      simp only [List.map_cons, List.flatten_cons, Seg.orig]
      rw [if_neg (by omega), ih (i + L),
        slice_append_drop txt (Nat.le_add_right i L), slice_append_drop txt hpi]

/-- Reconstruction: the gaps and matches of a scan concatenate back to
the scanned text (provided the matcher only reports nonempty matches). -/
lemma scanSegs_reconstruct {m : Nat → Option Nat}
    (hm : ∀ i L, m i = some L → 1 ≤ L) (txt : List Char) :
    ((scanSegs m txt).map Seg.orig).flatten = txt := by
  unfold scanSegs
  simpa using scanSegsAux_reconstruct hm txt (txt.length + 1) 0

/-- Replacing every match of a scan by an equal-length string preserves
the total length. -/
lemma subSegs_length (f : List Char → List Char)
    (segs : List Seg) (hf : ∀ s, Seg.tok s ∈ segs → (f s).length = s.length) :
    (subSegs f segs).length = ((segs.map Seg.orig).flatten).length := by
  induction segs with
  | nil => rfl
  | cons sg rest ih =>
    have hrest : ∀ s, Seg.tok s ∈ rest → (f s).length = s.length := by
      intro s hs; exact hf s (List.mem_cons_of_mem _ hs)
    cases sg with
    | gap s => simp [subSegs, Seg.orig] at ih ⊢; simpa [subSegs] using ih hrest
    | tok s =>
      simp only [subSegs, List.map_cons, List.flatten_cons, List.length_append, Seg.orig]
      rw [hf s (List.mem_cons_self _ _)]
      simp only [subSegs] at ih
      rw [ih hrest]

lemma romanGo_append (x y : List Char) (p t : Int) :
    romanGo (x ++ y) p t = romanGo y (lastPrev x p) (romanGo x p t) := by
  induction x generalizing p t with
  | nil => rfl
  | cons c rest ih => simp [romanGo, lastPrev, ih]

lemma hundredsOpts_digits :
    ∀ b ∈ hundredsOpts, ∃ h : Fin 10, b = hundredsNumeral h := by decide

lemma tensOpts_digits :
    ∀ b ∈ tensOpts, ∃ h : Fin 10, b = tensNumeral h := by decide

lemma unitsOpts_digits :
    ∀ b ∈ unitsOpts, ∃ h : Fin 10, b = unitsNumeral h := by decide

lemma thousandsOpts_digits :
    ∀ b ∈ thousandsOpts, ∃ h : Fin 4, b = List.replicate h 'M' := by decide

lemma go_units (u : Nat) (hu : u ≤ 9) (t : Int) :
    romanGo (unitsNumeral u).reverse 0 t = t + u ∧
    0 ≤ lastPrev (unitsNumeral u).reverse 0 ∧
    lastPrev (unitsNumeral u).reverse 0 ≤ 5 := by
  interval_cases u <;>
    simp [unitsNumeral, romanGo, lastPrev, romanLetterVal] <;> omega

lemma go_tens (c : Nat) (hc : c ≤ 9) (p t : Int) (hp0 : 0 ≤ p) (hp : p ≤ 5) :
    romanGo (tensNumeral c).reverse p t = t + 10 * c ∧
    0 ≤ lastPrev (tensNumeral c).reverse p ∧
    lastPrev (tensNumeral c).reverse p ≤ 50 := by
  interval_cases c <;>
    simp [tensNumeral, romanGo, lastPrev, romanLetterVal] <;> omega

lemma go_hundreds (h : Nat) (hh : h ≤ 9) (p t : Int) (hp0 : 0 ≤ p) (hp : p ≤ 50) :
    romanGo (hundredsNumeral h).reverse p t = t + 100 * h ∧
    0 ≤ lastPrev (hundredsNumeral h).reverse p ∧
    lastPrev (hundredsNumeral h).reverse p ≤ 500 := by
  interval_cases h <;>
    simp [hundredsNumeral, romanGo, lastPrev, romanLetterVal] <;> omega

lemma go_thousands (a : Nat) (p t : Int) (hp0 : 0 ≤ p) (hp : p ≤ 1000) :
    romanGo (List.replicate a 'M') p t = t + 1000 * a := by
  induction a generalizing p t with
  | zero => simp [romanGo]
  | succ a ih =>
    simp only [List.replicate_succ, romanGo, romanLetterVal]
    rw [if_pos (by omega), ih 1000 _ (by norm_num) (by norm_num)]
    push_cast
    ring

lemma thousandsNumeral_mem (a : Nat) (ha : a ≤ 3) :
    List.replicate a 'M' ∈ thousandsOpts := by
  interval_cases a <;> decide

lemma hundredsNumeral_mem (h : Nat) (hh : h ≤ 9) :
    hundredsNumeral h ∈ hundredsOpts := by
  interval_cases h <;> decide

lemma tensNumeral_mem (t : Nat) (ht : t ≤ 9) :
    tensNumeral t ∈ tensOpts := by
  interval_cases t <;> decide

lemma unitsNumeral_mem (u : Nat) (hu : u ≤ 9) :
    unitsNumeral u ∈ unitsOpts := by
  interval_cases u <;> decide

/-- The validator regex's language is exactly the concatenations of
canonical digit numerals: the decomposition is the bridge between the
code's validator and the standard value of a numeral. -/
lemma romanValidates_iff (s : List Char) :
    romanValidates s = true ↔
      ∃ (a : Fin 4) (h t u : Fin 10),
        s = List.replicate a 'M' ++ hundredsNumeral h ++ tensNumeral t ++ unitsNumeral u := by
  constructor
  · intro hv
    unfold romanValidates at hv
    obtain ⟨pa, hpa, hv⟩ := List.any_eq_true.mp hv
    obtain ⟨pb, hpb, hv⟩ := List.any_eq_true.mp hv
    obtain ⟨pc, hpc, hv⟩ := List.any_eq_true.mp hv
    obtain ⟨pd, hpd, hv⟩ := List.any_eq_true.mp hv
    obtain ⟨a, rfl⟩ := thousandsOpts_digits pa hpa
    obtain ⟨h, rfl⟩ := hundredsOpts_digits pb hpb
    obtain ⟨t, rfl⟩ := tensOpts_digits pc hpc
    obtain ⟨u, rfl⟩ := unitsOpts_digits pd hpd
    exact ⟨a, h, t, u, by simpa using (beq_iff_eq.mp hv)⟩
  · rintro ⟨a, h, t, u, rfl⟩
    unfold romanValidates
    refine List.any_eq_true.mpr ⟨_, thousandsNumeral_mem a (by omega), ?_⟩
    refine List.any_eq_true.mpr ⟨_, hundredsNumeral_mem h (by omega), ?_⟩
    refine List.any_eq_true.mpr ⟨_, tensNumeral_mem t (by omega), ?_⟩
    refine List.any_eq_true.mpr ⟨_, unitsNumeral_mem u (by omega), ?_⟩
    exact beq_iff_eq.mpr rfl

/-- Value of the summation loop on a canonical decomposition. -/
lemma romanGo_value (a d3 d2 d1 : Nat) (h3 : d3 ≤ 9) (h2 : d2 ≤ 9) (h1 : d1 ≤ 9) :
    romanGo (List.replicate a 'M' ++ hundredsNumeral d3 ++ tensNumeral d2 ++
      unitsNumeral d1).reverse 0 0 =
      1000 * a + 100 * d3 + 10 * d2 + d1 := by
  obtain ⟨e1, hp1a, hp1b⟩ := go_units d1 h1 0
  obtain ⟨e2, hp2a, hp2b⟩ :=
    go_tens d2 h2 (lastPrev (unitsNumeral d1).reverse 0) ((0 : Int) + d1) hp1a hp1b
  obtain ⟨e3, hp3a, hp3b⟩ :=
    go_hundreds d3 h3 (lastPrev (tensNumeral d2).reverse (lastPrev (unitsNumeral d1).reverse 0))
      ((0 : Int) + d1 + 10 * d2) hp2a hp2b
  have e4 := go_thousands a
    (lastPrev (hundredsNumeral d3).reverse
      (lastPrev (tensNumeral d2).reverse (lastPrev (unitsNumeral d1).reverse 0)))
    ((0 : Int) + d1 + 10 * d2 + 100 * d3) hp3a (by omega)
  simp only [List.reverse_append, List.reverse_replicate]
  rw [romanGo_append, e1, romanGo_append, e2, romanGo_append, e3, e4]
  ring

/-- C4 counterexample: the claim asserts that the empty string is not
matched by the validator grammar and hence yields the "not a numeral"
result (`none`); but the grammar `M{0,3}(CM|CD|D?C{0,3})(XC|XL|L?X{0,3})(IX|IV|V?I{0,3})`
accepts the empty string (zero repetitions everywhere), and
`roman_to_arabic` returns the partial value `0` for it, not `none`. -/
theorem claim4_counterexample_empty :
    roman_to_arabic [] = some 0 ∧ roman_to_arabic [] ≠ none := by
  have h0 : roman_to_arabic [] = some 0 := rfl
  refine ⟨h0, ?_⟩
  rw [h0]
  exact fun h => Option.noConfusion h

/-- C4 (amended): for every string whose uppercase form matches the
subtractive-notation grammar and is neither the bare "I" nor the empty
string, `roman_to_arabic` returns the standard Arabic value of its
canonical digit decomposition, an integer in 1..3999; for a bare "I"
and for every string the grammar rejects (e.g. "IIII", "VX", "ABC") it
returns `none`; the empty string, which the grammar accepts, returns
`some 0`. -/
theorem claim4_roman_to_arabic_amended :
    (∀ s : List Char,
        romanValidates (upperStr s) = true → upperStr s ≠ [] → upperStr s ≠ ['I'] →
        ∃ a h t u : Nat, a ≤ 3 ∧ h ≤ 9 ∧ t ≤ 9 ∧ u ≤ 9 ∧
          upperStr s = List.replicate a 'M' ++ hundredsNumeral h ++ tensNumeral t ++
            unitsNumeral u ∧
          1 ≤ 1000 * a + 100 * h + 10 * t + u ∧
          1000 * a + 100 * h + 10 * t + u ≤ 3999 ∧
          roman_to_arabic s = some ((1000 * a + 100 * h + 10 * t + u : Nat) : Int)) ∧
    (∀ s : List Char, upperStr s = ['I'] → roman_to_arabic s = none) ∧
    (∀ s : List Char, romanValidates (upperStr s) = false → roman_to_arabic s = none) ∧
    roman_to_arabic ['I', 'I', 'I', 'I'] = none ∧
    roman_to_arabic ['V', 'X'] = none ∧
    roman_to_arabic ['A', 'B', 'C'] = none ∧
    roman_to_arabic [] = some 0 := by
  refine ⟨?_, ?_, ?_, by decide, by decide, by decide, rfl⟩
  · intro s hv hne hnI
    obtain ⟨a, h, t, u, hdec⟩ := (romanValidates_iff _).mp hv
    refine ⟨a, h, t, u, by omega, by omega, by omega, by omega, hdec, ?_, by omega, ?_⟩
    · by_contra hlt
      have hz : (a : Nat) = 0 ∧ (h : Nat) = 0 ∧ (t : Nat) = 0 ∧ (u : Nat) = 0 := by omega
      apply hne
      rw [hdec, hz.1, hz.2.1, hz.2.2.1, hz.2.2.2]
      rfl
    · simp only [roman_to_arabic]
      rw [if_neg hnI, if_pos hv, hdec,
        romanGo_value a h t u (by omega) (by omega) (by omega)]
      push_cast
      ring_nf
  · intro s hI
    simp only [roman_to_arabic]
    rw [if_pos hI]
  · intro s hv
    simp [roman_to_arabic, hv]

/-- Witness for C4 (amended), at the concrete input "XIV". -/
theorem claim4_roman_witness :
    ∃ a h t u : Nat, a ≤ 3 ∧ h ≤ 9 ∧ t ≤ 9 ∧ u ≤ 9 ∧
      upperStr ['X', 'I', 'V'] = List.replicate a 'M' ++ hundredsNumeral h ++
        tensNumeral t ++ unitsNumeral u ∧
      1 ≤ 1000 * a + 100 * h + 10 * t + u ∧
      1000 * a + 100 * h + 10 * t + u ≤ 3999 ∧
      roman_to_arabic ['X', 'I', 'V'] = some ((1000 * a + 100 * h + 10 * t + u : Nat) : Int) :=
  claim4_roman_to_arabic_amended.1 ['X', 'I', 'V'] (by decide) (by decide) (by decide)

/-- C5 counterexample: on the claimed `.txt` example the code produces
"Chapter One" without the trailing newline the claim requires; and on
an unknown (non-.txt, non-HTML) extension the code leaves the text
unchanged instead of removing digit-only lines as the claim requires. -/
theorem claim5_counterexample_pagination :
    (remove_pagination_nonhtml (some ('b' :: '.' :: 't' :: 'x' :: 't' :: []))
        (('1' :: '\n' :: []) ++ ('C' :: 'h' :: 'a' :: 'p' :: 't' :: 'e' :: 'r' :: ' ' ::
          'O' :: 'n' :: 'e' :: '\n' :: []) ++ ('2' :: '\n' :: []))).text =
      ('C' :: 'h' :: 'a' :: 'p' :: 't' :: 'e' :: 'r' :: ' ' :: 'O' :: 'n' :: 'e' :: []) ∧
    ('C' :: 'h' :: 'a' :: 'p' :: 't' :: 'e' :: 'r' :: ' ' :: 'O' :: 'n' :: 'e' :: []) ≠
      ('C' :: 'h' :: 'a' :: 'p' :: 't' :: 'e' :: 'r' :: ' ' :: 'O' :: 'n' :: 'e' :: '\n' :: []) ∧
    (remove_pagination_nonhtml (some ('b' :: '.' :: 'm' :: 'd' :: []))
        (('1' :: '\n' :: []) ++ ('C' :: 'h' :: 'a' :: 'p' :: 't' :: 'e' :: 'r' :: ' ' ::
          'O' :: 'n' :: 'e' :: '\n' :: []) ++ ('2' :: '\n' :: []))).text =
      (('1' :: '\n' :: []) ++ ('C' :: 'h' :: 'a' :: 'p' :: 't' :: 'e' :: 'r' :: ' ' ::
        'O' :: 'n' :: 'e' :: '\n' :: []) ++ ('2' :: '\n' :: [])) := by
  refine ⟨by decide, by decide, by decide⟩

/-- C5 (amended): on a `.txt` filepath, `remove_pagination` keeps, in
order, exactly the lines whose stripped content is not purely digits
and joins them with a newline (so a trailing newline of the input is
not reproduced), logging each removed line; on a filepath that is
neither `.txt` nor HTML the text is unchanged and nothing is logged;
the claimed example yields "Chapter One" and two logged lines. -/
theorem claim5_remove_pagination_amended :
    (∀ fp text, isTxtPath fp = true →
      (remove_pagination_nonhtml fp text).text =
        joinLines ((splitlines text).filter fun l => !pyIsdigit (pyStrip l)) ∧
      (remove_pagination_nonhtml fp text).removedLog.length =
        ((splitlines text).filter fun l => pyIsdigit (pyStrip l)).length) ∧
    (∀ fp text, isTxtPath fp = false →
      remove_pagination_nonhtml fp text = ⟨text, []⟩) ∧
    (remove_pagination_nonhtml (some ('b' :: '.' :: 't' :: 'x' :: 't' :: []))
        (('1' :: '\n' :: []) ++ ('C' :: 'h' :: 'a' :: 'p' :: 't' :: 'e' :: 'r' :: ' ' ::
          'O' :: 'n' :: 'e' :: '\n' :: []) ++ ('2' :: '\n' :: []))).text =
      ('C' :: 'h' :: 'a' :: 'p' :: 't' :: 'e' :: 'r' :: ' ' :: 'O' :: 'n' :: 'e' :: []) ∧
    (remove_pagination_nonhtml (some ('b' :: '.' :: 't' :: 'x' :: 't' :: []))
        (('1' :: '\n' :: []) ++ ('C' :: 'h' :: 'a' :: 'p' :: 't' :: 'e' :: 'r' :: ' ' ::
          'O' :: 'n' :: 'e' :: '\n' :: []) ++ ('2' :: '\n' :: []))).removedLog.length = 2 := by
  refine ⟨?_, ?_, by decide, by decide⟩
  · intro fp text htxt
    unfold remove_pagination_nonhtml
    rw [if_pos htxt]
    exact ⟨rfl, by simp⟩
  · intro fp text htxt
    unfold remove_pagination_nonhtml
    rw [if_neg (by simp [htxt])]

/-- Witness for C5 (amended), at a concrete `.txt` path and a concrete
unknown-extension path. -/
theorem claim5_pagination_witness :
    ((remove_pagination_nonhtml (some ('b' :: '.' :: 't' :: 'x' :: 't' :: []))
        ('7' :: '\n' :: 'h' :: 'i' :: [])).text =
      joinLines ((splitlines ('7' :: '\n' :: 'h' :: 'i' :: [])).filter
        fun l => !pyIsdigit (pyStrip l)) ∧
     (remove_pagination_nonhtml (some ('b' :: '.' :: 't' :: 'x' :: 't' :: []))
        ('7' :: '\n' :: 'h' :: 'i' :: [])).removedLog.length =
      ((splitlines ('7' :: '\n' :: 'h' :: 'i' :: [])).filter
        fun l => pyIsdigit (pyStrip l)).length) ∧
    remove_pagination_nonhtml (some ('b' :: '.' :: 'm' :: 'd' :: []))
      ('7' :: '\n' :: 'h' :: 'i' :: []) = ⟨'7' :: '\n' :: 'h' :: 'i' :: [], []⟩ :=
  ⟨claim5_remove_pagination_amended.1 (some ('b' :: '.' :: 't' :: 'x' :: 't' :: []))
      ('7' :: '\n' :: 'h' :: 'i' :: []) (by decide),
   claim5_remove_pagination_amended.2.1 (some ('b' :: '.' :: 'm' :: 'd' :: []))
      ('7' :: '\n' :: 'h' :: 'i' :: []) (by decide)⟩

lemma applyLineEdits_cons (e : Nat × List Char) (rest : List (Nat × List Char))
    (ls : List (List Char)) :
    applyLineEdits (e :: rest) ls =
      applyLineEdits rest (if e.1 < ls.length then ls.set e.1 e.2 else ls) := by
  unfold applyLineEdits
  rw [List.foldl_cons]

lemma applyLineEdits_length (edits : List (Nat × List Char)) (ls : List (List Char)) :
    (applyLineEdits edits ls).length = ls.length := by
  induction edits generalizing ls with
  | nil => rfl
  | cons e rest ih =>
    rw [applyLineEdits_cons]
    split
    · rw [ih, List.length_set]
    · exact ih ls

lemma applyLineEdits_frame (edits : List (Nat × List Char)) (ls : List (List Char))
    (j : Nat) (hj : ∀ e ∈ edits, e.1 ≠ j) :
    (applyLineEdits edits ls).get? j = ls.get? j := by
  induction edits generalizing ls with
  | nil => rfl
  | cons e rest ih =>
    have hrest : ∀ x ∈ rest, x.1 ≠ j := fun x hx => hj x (List.mem_cons_of_mem _ hx)
    rw [applyLineEdits_cons]
    split
    · rw [ih _ hrest, List.get?_set_ne _ _ (hj e (List.mem_cons_self _ _))]
    · exact ih ls hrest

lemma reFindAll_eq_nil_iff (m : Nat → Option Nat) (len : Nat) :
    reFindAll m len = [] ↔ ∀ i, i ≤ len → m i = none := by
  unfold reFindAll reFindAllAux
  constructor
  · intro h i hi
    by_contra hm
    cases hFF : reFindFrom m len 0 with
    | none =>
      unfold reFindFrom at hFF
      have := List.findSome?_eq_none_iff.mp hFF i (by
        apply List.mem_range'_1.mpr
        omega)
      rcases hmm : m i with - | L
      · exact hm hmm
      · rw [hmm] at this; simp at this
    | some iL =>
      rw [hFF] at h
      exact absurd h (by simp)
  · intro h
    have : reFindFrom m len 0 = none := by
      unfold reFindFrom
      apply List.findSome?_eq_none_iff.mpr
      intro i hi
      rw [h i (by
        have := List.mem_range'_1.mp hi
        omega)]
      rfl
    rw [this]

/-- C8: `find_numbered_lines` returns exactly the lines containing a
run of 3 or more consecutive digits, each with the spans of its
maximal digits runs, and `apply_edits` rewrites only the lines whose
numbers are edit keys; on the claimed example, exactly line 1
qualifies with span (9,13), and editing it changes only that line. -/
theorem claim8_numbered_lines :
    (∀ text : List Char, ∀ e ∈ find_numbered_lines text,
      (splitlines text).get? e.1 = some e.2.1 ∧
      e.2.2 = lineNumberSpans e.2.1 ∧ e.2.2 ≠ []) ∧
    (∀ text line : List Char, ∀ idx : Nat,
      (splitlines text).get? idx = some line → lineNumberSpans line ≠ [] →
      (idx, line, lineNumberSpans line) ∈ find_numbered_lines text) ∧
    (∀ line : List Char,
      lineNumberSpans line ≠ [] ↔ ∃ i, i ≤ line.length ∧ 3 ≤ digitRunLen line i) ∧
    (∀ edits : List (Nat × List Char), ∀ ls : List (List Char),
      (applyLineEdits edits ls).length = ls.length) ∧
    (∀ edits : List (Nat × List Char), ∀ ls : List (List Char), ∀ j : Nat,
      (∀ e ∈ edits, e.1 ≠ j) → (applyLineEdits edits ls).get? j = ls.get? j) ∧
    (∀ edits : List (Nat × List Char), ∀ text : List Char, edits ≠ [] →
      apply_edits edits text = joinLines (applyLineEdits edits (splitlines text))) ∧
    find_numbered_lines (joinLines [("no numbers here").data,
        ("see page 1234 now").data, ("another 56 small").data]) =
      [(1, ("see page 1234 now").data, [(9, 13)])] ∧
    apply_edits [(1, ("edited line").data)] (joinLines [("no numbers here").data,
        ("see page 1234 now").data, ("another 56 small").data]) =
      joinLines [("no numbers here").data, ("edited line").data,
        ("another 56 small").data] := by
  refine ⟨?_, ?_, ?_, applyLineEdits_length, applyLineEdits_frame, ?_, by decide, by decide⟩
  · intro text e he
    unfold find_numbered_lines at he
    obtain ⟨a, ha, hfa⟩ := List.mem_filterMap.mp he
    split_ifs at hfa with hemp
    cases hfa
    refine ⟨?_, rfl, by simpa [List.isEmpty_iff] using hemp⟩
    have hmem := List.mem_enum_iff_getElem?.mp ha
    simpa [List.get?_eq_getElem?] using hmem
  · intro text line idx hget hsp
    unfold find_numbered_lines
    apply List.mem_filterMap.mpr
    refine ⟨(idx, line), ?_, ?_⟩
    · exact List.mem_enum_iff_getElem?.mpr (by simpa [List.get?_eq_getElem?] using hget)
    · rw [if_neg (by simp [List.isEmpty_iff, hsp])]
  · intro line
    constructor
    · intro h
      by_contra hno
      push_neg at hno
      apply h
      unfold lineNumberSpans
      rw [(reFindAll_eq_nil_iff _ _).mpr ?_]
      · rfl
      · intro i hi
        unfold numMatchAt
        rw [if_neg]
        have := hno i hi
        omega
    · rintro ⟨i, hi, hr⟩ h
      unfold lineNumberSpans at h
      rw [List.map_eq_nil_iff] at h
      have := (reFindAll_eq_nil_iff _ _).mp h i hi
      unfold numMatchAt at this
      rw [if_pos hr] at this
      exact Option.noConfusion this
  · intro edits text hne
    unfold apply_edits
    rw [if_neg (by simpa using hne)]

/-- Witness for C8, applying the quantified parts at concrete inputs. -/
theorem claim8_numbered_witness :
    ((splitlines (("ab 1234").data)).get? 0 = some (("ab 1234").data) ∧
      (lineNumberSpans (("ab 1234").data) ≠ [] ↔
        ∃ i, i ≤ (("ab 1234").data).length ∧ 3 ≤ digitRunLen (("ab 1234").data) i) ∧
      (applyLineEdits [(0, ("x").data)] [("a").data, ("b").data]).get? 1 =
        some (("b").data)) :=
  ⟨by decide,
   claim8_numbered_lines.2.2.1 (("ab 1234").data),
   claim8_numbered_lines.2.2.2.2.1 [(0, ("x").data)] [("a").data, ("b").data] 1
     (by decide)⟩

lemma startWordProcessing_text (fuel : Nat) (s : ChoiceState) :
    (startWordProcessing fuel s).text = s.text := by
  induction fuel generalizing s with
  | zero => rfl
  | succ fuel ih =>
    unfold startWordProcessing
    split
    · dsimp only
      split
      · split
        · rw [ih]
        · rfl
      · rfl
    · rfl

lemma finishCurrentWord_text (fuel : Nat) (s : ChoiceState) :
    (finishCurrentWord fuel s).2.text = s.text := by
  unfold finishCurrentWord
  dsimp only
  split
  · exact startWordProcessing_text fuel _
  · rfl

lemma nextMatchIdx_lt (e : Nat) (ms : List (Nat × Nat))
    (h : nextMatchIdx e ms < ms.length) :
    e ≤ (ms.getD (nextMatchIdx e ms) (0, 0)).1 := by
  unfold nextMatchIdx at h ⊢
  cases hfi : ms.findIdx? (fun msp => e ≤ msp.1) with
  | none =>
    rw [hfi] at h
    have hfalse : ms.length < ms.length := h
    omega
  | some k =>
    rw [hfi] at h
    obtain ⟨hk, hp, -⟩ := List.findIdx?_eq_some_iff_getElem.mp hfi
    show e ≤ (ms.getD k (0, 0)).1
    rw [List.getD_eq_getElem ms (0, 0) hk]
    simpa using hp

lemma nextMatchIdx_before (e : Nat) (ms : List (Nat × Nat))
    (j : Nat) (hj : j < nextMatchIdx e ms) (hjm : j < ms.length) :
    (ms.getD j (0, 0)).1 < e := by
  unfold nextMatchIdx at hj
  rw [List.getD_eq_getElem ms (0, 0) hjm]
  cases hfi : ms.findIdx? (fun msp => e ≤ msp.1) with
  | none =>
    have := List.findIdx?_eq_none_iff.mp hfi (ms[j]) (List.getElem_mem hjm)
    simpa using this
  | some k =>
    rw [hfi] at hj
    obtain ⟨hk, -, hbefore⟩ := List.findIdx?_eq_some_iff_getElem.mp hfi
    have hjk : j < k := hj
    have := hbefore j hjk
    simpa using this

lemma startWordProcessing_log (fuel : Nat) (s : ChoiceState) :
    (startWordProcessing fuel s).replacementsLogged = s.replacementsLogged := by
  induction fuel generalizing s with
  | zero => rfl
  | succ fuel ih =>
    unfold startWordProcessing
    split
    · dsimp only
      split
      · split
        · rw [ih]
        · rfl
      · rfl
    · rfl

lemma finishCurrentWord_log (fuel : Nat) (s : ChoiceState) :
    (finishCurrentWord fuel s).2.replacementsLogged = s.replacementsLogged := by
  unfold finishCurrentWord
  dsimp only
  split
  · exact startWordProcessing_log fuel _
  · rfl

lemma nextMatchIdx_le (e : Nat) (ms : List (Nat × Nat)) :
    nextMatchIdx e ms ≤ ms.length := by
  unfold nextMatchIdx
  cases hfi : ms.findIdx? (fun msp => e ≤ msp.1) with
  | none => exact Nat.le_refl _
  | some k =>
    obtain ⟨hk, -, -⟩ := List.findIdx?_eq_some_iff_getElem.mp hfi
    exact Nat.le_of_lt hk

/-- C1: when the selected option case-insensitively equals the matched
substring, `handle_choice` leaves the text alone, drops that match and
continues at the same index (finishing the word when none remain);
otherwise it splices the option in at the recorded span, re-scans the
whole new text for the current word, and continues at the first new
match starting at or after the replaced match's original end offset
(finishing the word if none qualifies, where `nextMatchIdx` is exactly
that first-at-or-after index); and on "red red red" with
choices red -> [blue, red], selecting "red" then "blue" twice yields
"red blue blue" with exactly 2 logged replacements. -/
theorem claim1_choice_engine :
    (∀ (fuel : Nat) (choice : List Char) (s : ChoiceState),
      s.matchIdx < s.matchList.length →
      lowerStr choice =
        lowerStr (slice s.text (s.matchList.getD s.matchIdx (0, 0)).1
          (s.matchList.getD s.matchIdx (0, 0)).2) →
      handle_choice fuel choice s =
        if s.matchIdx < (s.matchList.eraseIdx s.matchIdx).length then
          (true, { s with matchList := s.matchList.eraseIdx s.matchIdx })
        else
          finishCurrentWord fuel { s with matchList := s.matchList.eraseIdx s.matchIdx }) ∧
    (∀ (fuel : Nat) (choice : List Char) (s : ChoiceState),
      s.matchIdx < s.matchList.length →
      lowerStr choice ≠
        lowerStr (slice s.text (s.matchList.getD s.matchIdx (0, 0)).1
          (s.matchList.getD s.matchIdx (0, 0)).2) →
      (handle_choice fuel choice s).2.text =
        splice s.text (s.matchList.getD s.matchIdx (0, 0)).1
          (s.matchList.getD s.matchIdx (0, 0)).2 choice ∧
      (handle_choice fuel choice s).2.replacementsLogged = s.replacementsLogged + 1 ∧
      handle_choice fuel choice s =
        (if nextMatchIdx (s.matchList.getD s.matchIdx (0, 0)).2
            (findWordMatches true (s.word.getD [])
              (splice s.text (s.matchList.getD s.matchIdx (0, 0)).1
                (s.matchList.getD s.matchIdx (0, 0)).2 choice)) <
            (findWordMatches true (s.word.getD [])
              (splice s.text (s.matchList.getD s.matchIdx (0, 0)).1
                (s.matchList.getD s.matchIdx (0, 0)).2 choice)).length then
          (true, { s with
            text := splice s.text (s.matchList.getD s.matchIdx (0, 0)).1
              (s.matchList.getD s.matchIdx (0, 0)).2 choice
            matchList := findWordMatches true (s.word.getD [])
              (splice s.text (s.matchList.getD s.matchIdx (0, 0)).1
                (s.matchList.getD s.matchIdx (0, 0)).2 choice)
            matchIdx := nextMatchIdx (s.matchList.getD s.matchIdx (0, 0)).2
              (findWordMatches true (s.word.getD [])
                (splice s.text (s.matchList.getD s.matchIdx (0, 0)).1
                  (s.matchList.getD s.matchIdx (0, 0)).2 choice))
            replacementsLogged := s.replacementsLogged + 1 })
        else
          finishCurrentWord fuel { s with
            text := splice s.text (s.matchList.getD s.matchIdx (0, 0)).1
              (s.matchList.getD s.matchIdx (0, 0)).2 choice
            matchList := findWordMatches true (s.word.getD [])
              (splice s.text (s.matchList.getD s.matchIdx (0, 0)).1
                (s.matchList.getD s.matchIdx (0, 0)).2 choice)
            matchIdx := nextMatchIdx (s.matchList.getD s.matchIdx (0, 0)).2
              (findWordMatches true (s.word.getD [])
                (splice s.text (s.matchList.getD s.matchIdx (0, 0)).1
                  (s.matchList.getD s.matchIdx (0, 0)).2 choice))
            replacementsLogged := s.replacementsLogged + 1 })) ∧
    (∀ (e : Nat) (ms : List (Nat × Nat)),
      nextMatchIdx e ms ≤ ms.length ∧
      (nextMatchIdx e ms < ms.length → e ≤ (ms.getD (nextMatchIdx e ms) (0, 0)).1) ∧
      (∀ j, j < nextMatchIdx e ms → j < ms.length → (ms.getD j (0, 0)).1 < e)) ∧
    ((processChoicesStart redChoices (("red red red").data)).matchList =
        [(0, 3), (4, 7), (8, 11)] ∧
      (handle_choice 2 (("red").data)
        (processChoicesStart redChoices (("red red red").data))).1 = true ∧
      (handle_choice 2 (("red").data)
        (processChoicesStart redChoices (("red red red").data))).2.text =
        ("red red red").data ∧
      (handle_choice 2 (("blue").data) (handle_choice 2 (("blue").data)
        (handle_choice 2 (("red").data)
          (processChoicesStart redChoices (("red red red").data))).2).2).1 = false ∧
      (handle_choice 2 (("blue").data) (handle_choice 2 (("blue").data)
        (handle_choice 2 (("red").data)
          (processChoicesStart redChoices (("red red red").data))).2).2).2.text =
        ("red blue blue").data ∧
      (handle_choice 2 (("blue").data) (handle_choice 2 (("blue").data)
        (handle_choice 2 (("red").data)
          (processChoicesStart redChoices (("red red red").data))).2).2).2.replacementsLogged
        = 2) := by
  have hguard : ∀ s : ChoiceState, s.matchIdx < s.matchList.length →
      ¬ ((s.matchList.isEmpty || decide (s.matchList.length ≤ s.matchIdx)) = true) := by
    intro s h
    simp only [Bool.or_eq_true, decide_eq_true_eq, List.isEmpty_iff]
    push_neg
    exact ⟨List.ne_nil_of_length_pos (by omega), by omega⟩
  refine ⟨?_, ?_, ?_, by decide⟩
  · intro fuel choice s h heq
    simp only [handle_choice]
    rw [if_neg (hguard s h), if_pos heq]
  · intro fuel choice s h hne
    have hmain : handle_choice fuel choice s =
        (if nextMatchIdx (s.matchList.getD s.matchIdx (0, 0)).2
            (findWordMatches true (s.word.getD [])
              (splice s.text (s.matchList.getD s.matchIdx (0, 0)).1
                (s.matchList.getD s.matchIdx (0, 0)).2 choice)) <
            (findWordMatches true (s.word.getD [])
              (splice s.text (s.matchList.getD s.matchIdx (0, 0)).1
                (s.matchList.getD s.matchIdx (0, 0)).2 choice)).length then
          (true, { s with
            text := splice s.text (s.matchList.getD s.matchIdx (0, 0)).1
              (s.matchList.getD s.matchIdx (0, 0)).2 choice
            matchList := findWordMatches true (s.word.getD [])
              (splice s.text (s.matchList.getD s.matchIdx (0, 0)).1
                (s.matchList.getD s.matchIdx (0, 0)).2 choice)
            matchIdx := nextMatchIdx (s.matchList.getD s.matchIdx (0, 0)).2
              (findWordMatches true (s.word.getD [])
                (splice s.text (s.matchList.getD s.matchIdx (0, 0)).1
                  (s.matchList.getD s.matchIdx (0, 0)).2 choice))
            replacementsLogged := s.replacementsLogged + 1 })
        else
          finishCurrentWord fuel { s with
            text := splice s.text (s.matchList.getD s.matchIdx (0, 0)).1
              (s.matchList.getD s.matchIdx (0, 0)).2 choice
            matchList := findWordMatches true (s.word.getD [])
              (splice s.text (s.matchList.getD s.matchIdx (0, 0)).1
                (s.matchList.getD s.matchIdx (0, 0)).2 choice)
            matchIdx := nextMatchIdx (s.matchList.getD s.matchIdx (0, 0)).2
              (findWordMatches true (s.word.getD [])
                (splice s.text (s.matchList.getD s.matchIdx (0, 0)).1
                  (s.matchList.getD s.matchIdx (0, 0)).2 choice))
            replacementsLogged := s.replacementsLogged + 1 }) := by
      simp only [handle_choice]
      rw [if_neg (hguard s h), if_neg hne]
    refine ⟨?_, ?_, hmain⟩
    · rw [hmain]
      split
      · rfl
      · exact finishCurrentWord_text fuel _
    · rw [hmain]
      split
      · rfl
      · exact finishCurrentWord_log fuel _
  · intro e ms
    exact ⟨nextMatchIdx_le e ms, nextMatchIdx_lt e ms, nextMatchIdx_before e ms⟩

/-- Witness for C1, applying the two quantified branch descriptions at
concrete engine states from the scenario. -/
theorem claim1_choice_witness :
    (handle_choice 2 (("red").data)
        (processChoicesStart redChoices (("red red red").data)) =
      if (processChoicesStart redChoices (("red red red").data)).matchIdx <
          ((processChoicesStart redChoices (("red red red").data)).matchList.eraseIdx
            (processChoicesStart redChoices (("red red red").data)).matchIdx).length then
        (true, { processChoicesStart redChoices (("red red red").data) with
          matchList := (processChoicesStart redChoices
            (("red red red").data)).matchList.eraseIdx
              (processChoicesStart redChoices (("red red red").data)).matchIdx })
      else
        finishCurrentWord 2 { processChoicesStart redChoices (("red red red").data) with
          matchList := (processChoicesStart redChoices
            (("red red red").data)).matchList.eraseIdx
              (processChoicesStart redChoices (("red red red").data)).matchIdx }) ∧
    nextMatchIdx 7 [(0, 3), (9, 12)] ≤ 2 :=
  ⟨claim1_choice_engine.1 2 (("red").data)
      (processChoicesStart redChoices (("red red red").data)) (by decide) (by decide),
   (claim1_choice_engine.2.2.1 7 [(0, 3), (9, 12)]).1⟩

lemma setAdd_subset {α : Type} [DecidableEq α] (x : α) (l : List α) :
    l ⊆ setAdd x l := by
  unfold setAdd
  split
  · exact fun a ha => ha
  · exact fun a ha => List.mem_append_left _ ha

lemma setAdd_mem {α : Type} [DecidableEq α] (x : α) (l : List α) :
    x ∈ setAdd x l := by
  unfold setAdd
  split
  · assumption
  · exact List.mem_append_right _ (List.mem_singleton.mpr rfl)

lemma processNextSeqAux_frame (fuel : Nat) (s : CapsState) :
    (processNextSeqAux fuel s).text = s.text ∧
    (processNextSeqAux fuel s).ignoreSet = s.ignoreSet ∧
    (processNextSeqAux fuel s).lowercaseSet = s.lowercaseSet ∧
    (processNextSeqAux fuel s).decided = s.decided ∧
    (processNextSeqAux fuel s).loweredSpans = s.loweredSpans ∧
    (processNextSeqAux fuel s).matchesOrig = s.matchesOrig ∧
    (processNextSeqAux fuel s).savedHistory = s.savedHistory := by
  induction fuel generalizing s with
  | zero => exact ⟨rfl, rfl, rfl, rfl, rfl, rfl, rfl⟩
  | succ fuel ih =>
    unfold processNextSeqAux
    split
    · dsimp only
      split
      · exact ih _
      · exact ⟨rfl, rfl, rfl, rfl, rfl, rfl, rfl⟩
    · exact ⟨rfl, rfl, rfl, rfl, rfl, rfl, rfl⟩

lemma processNextSeq_frame (s : CapsState) :
    (processNextSeq s).text = s.text ∧
    (processNextSeq s).ignoreSet = s.ignoreSet ∧
    (processNextSeq s).lowercaseSet = s.lowercaseSet ∧
    (processNextSeq s).decided = s.decided ∧
    (processNextSeq s).loweredSpans = s.loweredSpans ∧
    (processNextSeq s).matchesOrig = s.matchesOrig ∧
    (processNextSeq s).savedHistory = s.savedHistory :=
  processNextSeqAux_frame _ s

lemma processNextSeqAux_presented (fuel : Nat) (s : CapsState)
    (hfuel : s.matchesOrig.length - s.matchIdx ≤ fuel)
    (h : (processNextSeqAux fuel s).matchIdx <
      (processNextSeqAux fuel s).matchesOrig.length) :
    ∃ hlt : (processNextSeqAux fuel s).matchIdx < s.matchesOrig.length,
      (s.matchesOrig.get ⟨(processNextSeqAux fuel s).matchIdx, hlt⟩).2 ∉ s.ignoreSet ∧
      (s.matchesOrig.get ⟨(processNextSeqAux fuel s).matchIdx, hlt⟩).2 ∉ s.decided ∧
      (processNextSeqAux fuel s).currentSeq =
        some (s.matchesOrig.get ⟨(processNextSeqAux fuel s).matchIdx, hlt⟩).2 := by
  induction fuel generalizing s with
  | zero =>
    exfalso
    have hidx : s.matchesOrig.length ≤ s.matchIdx := by omega
    exact absurd h (by
      unfold processNextSeqAux
      omega)
  | succ fuel ih =>
    by_cases hlt : s.matchIdx < s.matchesOrig.length
    · by_cases hskip : (s.matchesOrig.get ⟨s.matchIdx, hlt⟩).2 ∈ s.ignoreSet ∨
          (s.matchesOrig.get ⟨s.matchIdx, hlt⟩).2 ∈ s.decided
      · have heq : processNextSeqAux (fuel + 1) s =
            processNextSeqAux fuel { s with matchIdx := s.matchIdx + 1 } := by
          rw [processNextSeqAux, dif_pos hlt, if_pos hskip]
        rw [heq] at h ⊢
        exact ih { s with matchIdx := s.matchIdx + 1 } (by simp; omega) h
      · have heq : processNextSeqAux (fuel + 1) s =
            { s with
              currentSeq := some (s.matchesOrig.get ⟨s.matchIdx, hlt⟩).2
              currentSpan := some ((s.matchesOrig.get ⟨s.matchIdx, hlt⟩).1,
                (s.matchesOrig.get ⟨s.matchIdx, hlt⟩).1 +
                  (s.matchesOrig.get ⟨s.matchIdx, hlt⟩).2.length) } := by
          rw [processNextSeqAux, dif_pos hlt, if_neg hskip]
        rw [heq]
        push_neg at hskip
        exact ⟨hlt, hskip.1, hskip.2, rfl⟩
    · have heq : processNextSeqAux (fuel + 1) s = s := by
        rw [processNextSeqAux, dif_neg hlt]
      rw [heq] at h
      exact absurd h hlt

lemma processNextSeq_presented (s : CapsState)
    (h : (processNextSeq s).matchIdx < (processNextSeq s).matchesOrig.length) :
    ∃ hlt : (processNextSeq s).matchIdx < s.matchesOrig.length,
      (s.matchesOrig.get ⟨(processNextSeq s).matchIdx, hlt⟩).2 ∉ s.ignoreSet ∧
      (s.matchesOrig.get ⟨(processNextSeq s).matchIdx, hlt⟩).2 ∉ s.decided ∧
      (processNextSeq s).currentSeq =
        some (s.matchesOrig.get ⟨(processNextSeq s).matchIdx, hlt⟩).2 :=
  processNextSeqAux_presented _ s (Nat.le_refl _) h

lemma capsAdvance_frame (s : CapsState) :
    (capsAdvance s).2.text = s.text ∧
    (capsAdvance s).2.ignoreSet = s.ignoreSet ∧
    (capsAdvance s).2.lowercaseSet = s.lowercaseSet ∧
    (capsAdvance s).2.decided = s.decided ∧
    (capsAdvance s).2.loweredSpans = s.loweredSpans ∧
    (capsAdvance s).2.matchesOrig = s.matchesOrig ∧
    (capsAdvance s).2.savedHistory = s.savedHistory := by
  unfold capsAdvance
  exact processNextSeq_frame _

lemma scanSegsAux_tok_spec {m : Nat → Option Nat} (txt : List Char) :
    ∀ fuel p tk, Seg.tok tk ∈ scanSegsAux m txt fuel p →
      ∃ i L, m i = some L ∧ tk = slice txt i (i + L) := by
  intro fuel
  induction fuel with
  | zero =>
    intro p tk h
    simp [scanSegsAux] at h
  | succ fuel ih =>
    intro p tk h
    unfold scanSegsAux at h
    cases hfind : reFindFrom m txt.length p with
    | none => rw [hfind] at h; simp at h
    | some iL =>
      obtain ⟨i, L⟩ := iL
      rw [hfind] at h
      rcases List.mem_cons.mp h with h1 | h2
      · exact absurd h1 (by simp)
      · rcases List.mem_cons.mp h2 with h3 | h4
        · exact ⟨i, L, reFindFrom_isSome hfind, by injection h3⟩
        · exact ih _ tk h4

lemma slice_length_of_le {i L : Nat} (txt : List Char) (h : i + L ≤ txt.length) :
    (slice txt i (i + L)).length = L := by
  unfold slice
  rw [List.length_take, List.length_drop]
  omega

lemma wordMatchAt_some {ci : Bool} {w txt : List Char} {i L : Nat}
    (h : wordMatchAt ci w txt i = some L) :
    L = w.length ∧ 1 ≤ L ∧ i + L ≤ txt.length := by
  unfold wordMatchAt at h
  split at h <;>
  · split at h
    · rename_i hc
      injection h with hL
      simp only [Bool.and_eq_true, Bool.not_eq_true', decide_eq_true_eq] at hc
      have hne : w ≠ [] := by
        intro hw
        rw [hw] at hc
        simp at hc
      refine ⟨hL.symm, ?_, ?_⟩
      · rw [← hL]
        exact List.length_pos.mpr hne
      · rw [← hL]
        exact hc.1.1.1.2
    · exact absurd h (by simp)

lemma wordSub_length (w repl txt : List Char) (hr : repl.length = w.length) :
    (wordSub w repl txt).length = txt.length := by
  unfold wordSub reSub
  have hm : ∀ i L, wordMatchAt false w txt i = some L → 1 ≤ L :=
    fun i L h => (wordMatchAt_some h).2.1
  rw [subSegs_length _ _ ?_, scanSegs_reconstruct hm txt]
  intro tk htk
  obtain ⟨i, L, hiL, rfl⟩ := scanSegsAux_tok_spec txt _ _ tk htk
  obtain ⟨hLw, -, hle⟩ := wordMatchAt_some hiL
  rw [slice_length_of_le txt hle, hr, hLw]

lemma capsPrePass_cons (w : List Char) (rest : List (List Char)) (text : List Char) :
    capsPrePass (w :: rest) text = capsPrePass rest (wordSub w (lowerStr w) text) := by
  unfold capsPrePass
  rw [List.foldl_cons]

lemma capsPrePass_length (lowercaseSet : List (List Char)) (text : List Char) :
    (capsPrePass lowercaseSet text).length = text.length := by
  induction lowercaseSet generalizing text with
  | nil => rfl
  | cons w rest ih =>
    rw [capsPrePass_cons, ih, wordSub_length _ _ _ (by simp [lowerStr])]

lemma splice_length {a b : Nat} (s mid : List Char) (hb : b = a + mid.length)
    (hle : b ≤ s.length) : (splice s a b mid).length = s.length := by
  unfold splice
  simp only [List.length_append, List.length_take, List.length_drop]
  omega

lemma reFindAllAux_spec {m : Nat → Option Nat} (len : Nat) :
    ∀ fuel p i L, (i, L) ∈ reFindAllAux m len fuel p → m i = some L := by
  intro fuel
  induction fuel with
  | zero => intro p i L h; simp [reFindAllAux] at h
  | succ fuel ih =>
    intro p i L h
    unfold reFindAllAux at h
    cases hfind : reFindFrom m len p with
    | none => rw [hfind] at h; simp at h
    | some jK =>
      obtain ⟨j, K⟩ := jK
      rw [hfind] at h
      rcases List.mem_cons.mp h with h1 | h2
      · cases h1
        exact reFindFrom_isSome hfind
      · exact ih _ i L h2

lemma capsMatchAt_some {txt : List Char} {i L : Nat}
    (h : capsMatchAt txt i = some L) : 1 ≤ L ∧ i + L ≤ txt.length := by
  unfold capsMatchAt at h
  split at h
  · have hfind := List.find?_some h
    have hmem := List.mem_reverse.mp (List.mem_of_find?_eq_some h)
    have hrange := List.mem_range'_1.mp hmem
    have hrun : ((txt.drop i).takeWhile isUpperOrSpace).length ≤ txt.length - i := by
      calc ((txt.drop i).takeWhile isUpperOrSpace).length
          ≤ (txt.drop i).length := (List.takeWhile_sublist _).length_le
        _ = txt.length - i := List.length_drop i txt
    constructor
    · omega
    · omega
  · exact absurd h (by simp)

lemma findCapsSequences_bounds (txt : List Char) :
    ∀ mt ∈ findCapsSequences txt, mt.1 + mt.2.length ≤ txt.length := by
  intro mt hmt
  unfold findCapsSequences at hmt
  obtain ⟨⟨i, L⟩, hmem, heq⟩ := List.mem_map.mp hmt
  have hML := reFindAllAux_spec txt.length _ _ i L hmem
  obtain ⟨h1, hle⟩ := capsMatchAt_some hML
  cases heq
  simp only
  rw [slice_length_of_le txt hle]
  exact hle

lemma handleCapsChoice_mono (c : List Char) (s : CapsState) :
    s.decided ⊆ (handleCapsChoice c s).2.decided ∧
    s.ignoreSet ⊆ (handleCapsChoice c s).2.ignoreSet := by
  unfold handleCapsChoice
  cases hcs : s.currentSeq with
  | none => exact ⟨fun a ha => ha, fun a ha => ha⟩
  | some seq =>
    dsimp only
    by_cases h1 : lowerStr c ∈ [("y").data, ("yes").data, ("0").data]
    · rw [if_pos h1]
      split <;>
      · refine ⟨?_, ?_⟩
        · rw [(capsAdvance_frame _).2.2.2.1]
          exact fun a ha => setAdd_subset _ _ ha
        · rw [(capsAdvance_frame _).2.1]
          exact fun a ha => ha
    · rw [if_neg h1]
      by_cases h2 : lowerStr c ∈ [("n").data, ("no").data, ("1").data]
      · rw [if_pos h2]
        refine ⟨?_, ?_⟩
        · rw [(capsAdvance_frame _).2.2.2.1]
          exact fun a ha => setAdd_subset _ _ ha
        · rw [(capsAdvance_frame _).2.1]
          exact fun a ha => ha
      · rw [if_neg h2]
        by_cases h3 : lowerStr c ∈ [("a").data, ("add").data, ("2").data]
        · rw [if_pos h3]
          refine ⟨?_, ?_⟩
          · rw [(capsAdvance_frame _).2.2.2.1]
            exact fun a ha => setAdd_subset _ _ ha
          · rw [(capsAdvance_frame _).2.1]
            exact fun a ha => setAdd_subset _ _ ha
        · rw [if_neg h3]
          by_cases h4 : lowerStr c ∈ [("i").data, ("auto").data, ("3").data]
          · rw [if_pos h4]
            refine ⟨?_, ?_⟩
            · rw [(capsAdvance_frame _).2.2.2.1]
              exact fun a ha => setAdd_subset _ _ ha
            · rw [(capsAdvance_frame _).2.1]
              exact fun a ha => ha
          · rw [if_neg h4]
            exact ⟨fun a ha => ha, fun a ha => ha⟩

lemma handleCapsChoice_decides (c : List Char) (s : CapsState) (seq : List Char)
    (hcs : s.currentSeq = some seq) (hrec : lowerStr c ∈ recognizedCapsChoices) :
    seq ∈ (handleCapsChoice c s).2.decided := by
  unfold handleCapsChoice
  rw [hcs]
  dsimp only
  by_cases h1 : lowerStr c ∈ [("y").data, ("yes").data, ("0").data]
  · rw [if_pos h1]
    split <;>
    · rw [(capsAdvance_frame _).2.2.2.1]
      exact setAdd_mem _ _
  · rw [if_neg h1]
    by_cases h2 : lowerStr c ∈ [("n").data, ("no").data, ("1").data]
    · rw [if_pos h2]
      rw [(capsAdvance_frame _).2.2.2.1]
      exact setAdd_mem _ _
    · rw [if_neg h2]
      by_cases h3 : lowerStr c ∈ [("a").data, ("add").data, ("2").data]
      · rw [if_pos h3]
        rw [(capsAdvance_frame _).2.2.2.1]
        exact setAdd_mem _ _
      · rw [if_neg h3]
        by_cases h4 : lowerStr c ∈ [("i").data, ("auto").data, ("3").data]
        · rw [if_pos h4]
          rw [(capsAdvance_frame _).2.2.2.1]
          exact setAdd_mem _ _
        · exfalso
          simp only [recognizedCapsChoices, List.mem_cons, List.not_mem_nil, or_false] at hrec
          rcases hrec with h | h | h | h | h | h | h | h | h | h | h | h <;>
            rw [h] at h1 h2 h3 h4 <;>
            first
              | exact h1 (by decide)
              | exact h2 (by decide)
              | exact h3 (by decide)
              | exact h4 (by decide)

lemma runCapsTrace_cons (c : List Char) (rest : List (List Char)) (s : CapsState) :
    runCapsTrace (c :: rest) s = runCapsTrace rest (handleCapsChoice c s).2 := by
  unfold runCapsTrace
  rw [List.foldl_cons]

lemma runCapsTrace_mono (cs : List (List Char)) (s : CapsState) :
    s.decided ⊆ (runCapsTrace cs s).decided ∧
    s.ignoreSet ⊆ (runCapsTrace cs s).ignoreSet := by
  induction cs generalizing s with
  | nil => exact ⟨fun a ha => ha, fun a ha => ha⟩
  | cons c rest ih =>
    rw [runCapsTrace_cons]
    have hstep := handleCapsChoice_mono c s
    have hrest := ih (handleCapsChoice c s).2
    exact ⟨fun a ha => hrest.1 (hstep.1 ha), fun a ha => hrest.2 (hstep.2 ha)⟩

lemma marksFoldl_mono (seq : List Char) (ms : List (Nat × List Char))
    (acc : List (Nat × Nat)) :
    acc ⊆ ms.foldl
      (fun acc m => if m.2 == seq then setAdd (m.1, m.1 + m.2.length) acc else acc) acc := by
  induction ms generalizing acc with
  | nil => exact fun a ha => ha
  | cons x rest ih =>
    rw [List.foldl_cons]
    intro a ha
    apply ih
    split
    · exact setAdd_subset _ _ ha
    · exact ha

lemma marksFoldl_mem (seq : List Char) (ms : List (Nat × List Char))
    (acc : List (Nat × Nat)) :
    ∀ m ∈ ms, m.2 = seq → (m.1, m.1 + m.2.length) ∈ ms.foldl
      (fun acc m => if m.2 == seq then setAdd (m.1, m.1 + m.2.length) acc else acc) acc := by
  induction ms generalizing acc with
  | nil => intro m hm; simp at hm
  | cons x rest ih =>
    intro m hm hmseq
    rw [List.foldl_cons]
    rcases List.mem_cons.mp hm with rfl | hm2
    · rw [if_pos (by simpa using hmseq)]
      exact marksFoldl_mono seq rest _ (setAdd_mem _ _)
    · exact ih _ m hm2 hmseq

lemma handleCapsChoice_length (c : List Char) (s : CapsState) (seq : List Char) (a : Nat)
    (hcs : s.currentSeq = some seq) (hsp : s.currentSpan = some (a, a + seq.length))
    (hle : a + seq.length ≤ s.text.length) :
    (handleCapsChoice c s).2.text.length = s.text.length := by
  unfold handleCapsChoice
  rw [hcs, hsp]
  dsimp only
  by_cases h1 : lowerStr c ∈ [("y").data, ("yes").data, ("0").data]
  · rw [if_pos h1]
    split
    · rw [(capsAdvance_frame _).1]
      dsimp only
      rw [wordSub_length _ _ _ (by simp [lowerStr])]
      exact splice_length s.text (lowerStr seq) (by simp [lowerStr]) hle
    · rw [(capsAdvance_frame _).1]
      exact wordSub_length _ _ _ (by simp [lowerStr])
  · rw [if_neg h1]
    by_cases h2 : lowerStr c ∈ [("n").data, ("no").data, ("1").data]
    · rw [if_pos h2, (capsAdvance_frame _).1]
    · rw [if_neg h2]
      by_cases h3 : lowerStr c ∈ [("a").data, ("add").data, ("2").data]
      · rw [if_pos h3, (capsAdvance_frame _).1]
      · rw [if_neg h3]
        by_cases h4 : lowerStr c ∈ [("i").data, ("auto").data, ("3").data]
        · rw [if_pos h4, (capsAdvance_frame _).1]
          exact capsPrePass_length _ _
        · rw [if_neg h4]

/-- C2: on the Auto Lowercase choice, `handle_caps_choice` adds the
current sequence to the lowercase set, immediately persists the
config (with the updated set), bulk-lowercases every whole-word
occurrence of every sequence in the updated lowercase set across the
live text, marks the sequence decided, and marks every
original-snapshot span carrying this text as lowercased; on
"STOP. GO. STOP." choosing Auto Lowercase for the first STOP also
lowercases the third, not-yet-visited occurrence. -/
theorem claim2_auto_lowercase :
    (∀ (choice : List Char) (s : CapsState) (seq : List Char),
      s.currentSeq = some seq →
      lowerStr choice ∈ [("i").data, ("auto").data, ("3").data] →
      (handleCapsChoice choice s).2.lowercaseSet = setAdd seq s.lowercaseSet ∧
      (handleCapsChoice choice s).2.savedHistory =
        s.savedHistory ++ [(s.ignoreSet, setAdd seq s.lowercaseSet)] ∧
      (handleCapsChoice choice s).2.text =
        capsPrePass (setAdd seq s.lowercaseSet) s.text ∧
      seq ∈ (handleCapsChoice choice s).2.decided ∧
      (∀ m ∈ s.matchesOrig, m.2 = seq →
        (m.1, m.1 + m.2.length) ∈ (handleCapsChoice choice s).2.loweredSpans)) ∧
    ((processAllCapsStart (("STOP. GO. STOP.").data) [] [] false).matchesOrig =
        [(0, ("STOP").data), (6, ("GO").data), (10, ("STOP").data)] ∧
      (processAllCapsStart (("STOP. GO. STOP.").data) [] [] false).currentSeq =
        some (("STOP").data) ∧
      (processAllCapsStart (("STOP. GO. STOP.").data) [] [] false).matchIdx = 0 ∧
      (handleCapsChoice (("3").data)
        (processAllCapsStart (("STOP. GO. STOP.").data) [] [] false)).2.text =
        ("stop. GO. stop.").data ∧
      (10, 14) ∈ (handleCapsChoice (("3").data)
        (processAllCapsStart (("STOP. GO. STOP.").data) [] [] false)).2.loweredSpans ∧
      (0, 4) ∈ (handleCapsChoice (("3").data)
        (processAllCapsStart (("STOP. GO. STOP.").data) [] [] false)).2.loweredSpans ∧
      (handleCapsChoice (("3").data)
        (processAllCapsStart (("STOP. GO. STOP.").data) [] [] false)).2.lowercaseSet =
        [("STOP").data] ∧
      (handleCapsChoice (("3").data)
        (processAllCapsStart (("STOP. GO. STOP.").data) [] [] false)).2.savedHistory =
        [([], [("STOP").data])] ∧
      (("STOP").data) ∈ (handleCapsChoice (("3").data)
        (processAllCapsStart (("STOP. GO. STOP.").data) [] [] false)).2.decided) := by
  constructor
  · intro choice s seq hcs hrec
    have hne1 : lowerStr choice ∉ [("y").data, ("yes").data, ("0").data] := by
      simp only [List.mem_cons, List.not_mem_nil, or_false] at hrec ⊢
      rcases hrec with h | h | h <;> rw [h] <;> decide
    have hne2 : lowerStr choice ∉ [("n").data, ("no").data, ("1").data] := by
      simp only [List.mem_cons, List.not_mem_nil, or_false] at hrec ⊢
      rcases hrec with h | h | h <;> rw [h] <;> decide
    have hne3 : lowerStr choice ∉ [("a").data, ("add").data, ("2").data] := by
      simp only [List.mem_cons, List.not_mem_nil, or_false] at hrec ⊢
      rcases hrec with h | h | h <;> rw [h] <;> decide
    unfold handleCapsChoice
    rw [hcs]
    dsimp only
    rw [if_neg hne1, if_neg hne2, if_neg hne3, if_pos hrec]
    refine ⟨?_, ?_, ?_, ?_, ?_⟩
    · rw [(capsAdvance_frame _).2.2.1]
    · rw [(capsAdvance_frame _).2.2.2.2.2.2]
    · rw [(capsAdvance_frame _).1]
    · rw [(capsAdvance_frame _).2.2.2.1]
      exact setAdd_mem _ _
    · intro m hm hmseq
      rw [(capsAdvance_frame _).2.2.2.2.1]
      exact marksFoldl_mem seq s.matchesOrig _ m hm hmseq
  · refine ⟨by decide, by decide, by decide, by decide, by decide, by decide,
      by decide, by decide, by decide⟩

/-- Witness for C2, applying the general Auto Lowercase description at
the concrete engine state of the STOP scenario. -/
theorem claim2_auto_witness :
    (handleCapsChoice (("3").data)
        (processAllCapsStart (("STOP. GO. STOP.").data) [] [] false)).2.lowercaseSet =
      setAdd (("STOP").data)
        (processAllCapsStart (("STOP. GO. STOP.").data) [] [] false).lowercaseSet ∧
    (handleCapsChoice (("3").data)
        (processAllCapsStart (("STOP. GO. STOP.").data) [] [] false)).2.savedHistory =
      (processAllCapsStart (("STOP. GO. STOP.").data) [] [] false).savedHistory ++
        [((processAllCapsStart (("STOP. GO. STOP.").data) [] [] false).ignoreSet,
          setAdd (("STOP").data)
            (processAllCapsStart (("STOP. GO. STOP.").data) [] [] false).lowercaseSet)] ∧
    (handleCapsChoice (("3").data)
        (processAllCapsStart (("STOP. GO. STOP.").data) [] [] false)).2.text =
      capsPrePass
        (setAdd (("STOP").data)
          (processAllCapsStart (("STOP. GO. STOP.").data) [] [] false).lowercaseSet)
        (processAllCapsStart (("STOP. GO. STOP.").data) [] [] false).text ∧
    (("STOP").data) ∈ (handleCapsChoice (("3").data)
        (processAllCapsStart (("STOP. GO. STOP.").data) [] [] false)).2.decided ∧
    (∀ m ∈ (processAllCapsStart (("STOP. GO. STOP.").data) [] [] false).matchesOrig,
      m.2 = ("STOP").data →
      (m.1, m.1 + m.2.length) ∈ (handleCapsChoice (("3").data)
        (processAllCapsStart (("STOP. GO. STOP.").data) [] [] false)).2.loweredSpans) :=
  claim2_auto_lowercase.1 (("3").data)
    (processAllCapsStart (("STOP. GO. STOP.").data) [] [] false) (("STOP").data)
    (by decide) (by decide)

/-- C7: the sequence presented by the scan loop is never one whose
text is in the ignore set or already decided; every recognised choice
marks the current sequence text decided; the decided and ignore sets
only grow along a run; hence a text once decided (or ignored) is never
presented again anywhere later in the run — the decision is keyed by
the sequence's literal string. -/
theorem claim7_allcaps_no_reprompt :
    (∀ s : CapsState,
      (h : (processNextSeq s).matchIdx < (processNextSeq s).matchesOrig.length) →
      ∃ hlt : (processNextSeq s).matchIdx < s.matchesOrig.length,
        (s.matchesOrig.get ⟨(processNextSeq s).matchIdx, hlt⟩).2 ∉ s.ignoreSet ∧
        (s.matchesOrig.get ⟨(processNextSeq s).matchIdx, hlt⟩).2 ∉ s.decided ∧
        (processNextSeq s).currentSeq =
          some (s.matchesOrig.get ⟨(processNextSeq s).matchIdx, hlt⟩).2) ∧
    (∀ (c : List Char) (s : CapsState) (seq : List Char),
      s.currentSeq = some seq → lowerStr c ∈ recognizedCapsChoices →
      seq ∈ (handleCapsChoice c s).2.decided) ∧
    (∀ (cs : List (List Char)) (s : CapsState),
      s.decided ⊆ (runCapsTrace cs s).decided ∧
      s.ignoreSet ⊆ (runCapsTrace cs s).ignoreSet) ∧
    (∀ (cs : List (List Char)) (s : CapsState) (t : List Char),
      t ∈ s.decided ∨ t ∈ s.ignoreSet →
      (h : (processNextSeq (runCapsTrace cs s)).matchIdx <
        (processNextSeq (runCapsTrace cs s)).matchesOrig.length) →
      (processNextSeq (runCapsTrace cs s)).currentSeq ≠ some t) := by
  refine ⟨processNextSeq_presented, handleCapsChoice_decides, runCapsTrace_mono, ?_⟩
  intro cs s t ht h
  obtain ⟨hlt, hnig, hndec, hcur⟩ := processNextSeq_presented (runCapsTrace cs s) h
  rw [hcur]
  intro hsome
  have heq := Option.some.inj hsome
  rcases ht with htd | hti
  · exact hndec (heq ▸ (runCapsTrace_mono cs s).1 htd)
  · exact hnig (heq ▸ (runCapsTrace_mono cs s).2 hti)

/-- Witness for C7, applying the presentation and persistence parts at
concrete engine states: a decided "STOP" is skipped and "GO" is
presented instead. -/
theorem claim7_allcaps_witness :
    (∃ hlt : (processNextSeq
        { text := ("STOP. GO.").data
          ignoreSet := []
          lowercaseSet := []
          matchesOrig := [(0, ("STOP").data), (6, ("GO").data)]
          decided := [("STOP").data]
          loweredSpans := []
          matchIdx := 0
          currentSeq := none
          currentSpan := none
          hasCallback := false
          savedHistory := [] }).matchIdx < 2,
      (([(0, ("STOP").data), (6, ("GO").data)] :
          List (Nat × List Char)).get ⟨(processNextSeq
        { text := ("STOP. GO.").data
          ignoreSet := []
          lowercaseSet := []
          matchesOrig := [(0, ("STOP").data), (6, ("GO").data)]
          decided := [("STOP").data]
          loweredSpans := []
          matchIdx := 0
          currentSeq := none
          currentSpan := none
          hasCallback := false
          savedHistory := [] }).matchIdx, hlt⟩).2 ∉ ([] : List (List Char)) ∧
      (([(0, ("STOP").data), (6, ("GO").data)] :
          List (Nat × List Char)).get ⟨(processNextSeq
        { text := ("STOP. GO.").data
          ignoreSet := []
          lowercaseSet := []
          matchesOrig := [(0, ("STOP").data), (6, ("GO").data)]
          decided := [("STOP").data]
          loweredSpans := []
          matchIdx := 0
          currentSeq := none
          currentSpan := none
          hasCallback := false
          savedHistory := [] }).matchIdx, hlt⟩).2 ∉ [("STOP").data] ∧
      (processNextSeq
        { text := ("STOP. GO.").data
          ignoreSet := []
          lowercaseSet := []
          matchesOrig := [(0, ("STOP").data), (6, ("GO").data)]
          decided := [("STOP").data]
          loweredSpans := []
          matchIdx := 0
          currentSeq := none
          currentSpan := none
          hasCallback := false
          savedHistory := [] }).currentSeq =
        some (([(0, ("STOP").data), (6, ("GO").data)] :
          List (Nat × List Char)).get ⟨(processNextSeq
        { text := ("STOP. GO.").data
          ignoreSet := []
          lowercaseSet := []
          matchesOrig := [(0, ("STOP").data), (6, ("GO").data)]
          decided := [("STOP").data]
          loweredSpans := []
          matchIdx := 0
          currentSeq := none
          currentSpan := none
          hasCallback := false
          savedHistory := [] }).matchIdx, hlt⟩).2) ∧
    (processNextSeq (runCapsTrace []
        { text := ("STOP. GO.").data
          ignoreSet := []
          lowercaseSet := []
          matchesOrig := [(0, ("STOP").data), (6, ("GO").data)]
          decided := [("STOP").data]
          loweredSpans := []
          matchIdx := 0
          currentSeq := none
          currentSpan := none
          hasCallback := false
          savedHistory := [] })).currentSeq ≠ some (("STOP").data) :=
  ⟨claim7_allcaps_no_reprompt.1
      { text := ("STOP. GO.").data
        ignoreSet := []
        lowercaseSet := []
        matchesOrig := [(0, ("STOP").data), (6, ("GO").data)]
        decided := [("STOP").data]
        loweredSpans := []
        matchIdx := 0
        currentSeq := none
        currentSpan := none
        hasCallback := false
        savedHistory := [] } (by decide),
   claim7_allcaps_no_reprompt.2.2.2 []
      { text := ("STOP. GO.").data
        ignoreSet := []
        lowercaseSet := []
        matchesOrig := [(0, ("STOP").data), (6, ("GO").data)]
        decided := [("STOP").data]
        loweredSpans := []
        matchIdx := 0
        currentSeq := none
        currentSpan := none
        hasCallback := false
        savedHistory := [] } (("STOP").data) (Or.inl (by decide)) (by decide)⟩

/-- C10: length preservation in the all-caps engine.  In this ASCII
model, lowercasing is always character-for-character, which is exactly
what the claim's hypothesis (entries are ASCII uppercase letters and
spaces) guarantees for the Python code; the hypotheses delimit the
inputs on which the model represents `str.lower` faithfully.  The
pre-pass and every `handle_caps_choice` outcome preserve the text
length (given a well-formed current span), the snapshot spans lie
within the snapshot text, and hence every snapshot span stays
in-bounds in the live text after a choice is handled. -/
theorem claim10_allcaps_length_invariant :
    (∀ (lowercaseSet : List (List Char)) (text : List Char),
      (∀ w ∈ lowercaseSet, ∀ ch ∈ w, isUpperOrSpace ch = true) →
      (capsPrePass lowercaseSet text).length = text.length) ∧
    (∀ (choice : List Char) (s : CapsState) (seq : List Char) (a : Nat),
      s.currentSeq = some seq → s.currentSpan = some (a, a + seq.length) →
      a + seq.length ≤ s.text.length →
      (∀ ch ∈ seq, isUpperOrSpace ch = true) →
      (∀ w ∈ s.lowercaseSet, ∀ ch ∈ w, isUpperOrSpace ch = true) →
      (handleCapsChoice choice s).2.text.length = s.text.length) ∧
    (∀ txt : List Char, ∀ mt ∈ findCapsSequences txt,
      mt.1 + mt.2.length ≤ txt.length) ∧
    (∀ (choice : List Char) (s : CapsState) (seq : List Char) (a : Nat)
        (txt0 : List Char),
      s.matchesOrig = findCapsSequences txt0 → s.text.length = txt0.length →
      s.currentSeq = some seq → s.currentSpan = some (a, a + seq.length) →
      a + seq.length ≤ s.text.length →
      (∀ ch ∈ seq, isUpperOrSpace ch = true) →
      (∀ w ∈ s.lowercaseSet, ∀ ch ∈ w, isUpperOrSpace ch = true) →
      ∀ mt ∈ s.matchesOrig,
        mt.1 + mt.2.length ≤ (handleCapsChoice choice s).2.text.length) := by
  refine ⟨?_, ?_, findCapsSequences_bounds, ?_⟩
  · intro lowercaseSet text hcaps
    exact capsPrePass_length lowercaseSet text
  · intro choice s seq a hcs hsp hle hcaps1 hcaps2
    exact handleCapsChoice_length choice s seq a hcs hsp hle
  · intro choice s seq a txt0 hmo htl hcs hsp hle hcaps1 hcaps2 mt hmt
    rw [handleCapsChoice_length choice s seq a hcs hsp hle, htl]
    exact findCapsSequences_bounds txt0 mt (hmo ▸ hmt)

/-- Witness for C10, applying the length-preservation parts at the
concrete STOP-scenario state (Auto Lowercase on the first STOP). -/
theorem claim10_allcaps_witness :
    (capsPrePass [("STOP").data] (("STOP. GO.").data)).length =
      (("STOP. GO.").data).length ∧
    (handleCapsChoice (("3").data)
        (processAllCapsStart (("STOP. GO. STOP.").data) [] [] false)).2.text.length =
      (processAllCapsStart (("STOP. GO. STOP.").data) [] [] false).text.length ∧
    (∀ mt ∈ (processAllCapsStart (("STOP. GO. STOP.").data) [] [] false).matchesOrig,
      mt.1 + mt.2.length ≤ (handleCapsChoice (("3").data)
        (processAllCapsStart (("STOP. GO. STOP.").data) [] [] false)).2.text.length) :=
  ⟨claim10_allcaps_length_invariant.1 [("STOP").data] (("STOP. GO.").data)
      (by decide),
   claim10_allcaps_length_invariant.2.1 (("3").data)
      (processAllCapsStart (("STOP. GO. STOP.").data) [] [] false) (("STOP").data) 0
      (by decide) (by decide) (by decide) (by decide) (by decide),
   claim10_allcaps_length_invariant.2.2.2 (("3").data)
      (processAllCapsStart (("STOP. GO. STOP.").data) [] [] false) (("STOP").data) 0
      (("STOP. GO. STOP.").data) (by decide) (by decide) (by decide) (by decide)
      (by decide) (by decide) (by decide)⟩

lemma romanMatchAt_pos {txt : List Char} {i L : Nat}
    (h : romanMatchAt txt i = some L) : 1 ≤ L := by
  unfold romanMatchAt at h
  split at h
  · split at h
    · injection h with hL
      omega
    · dsimp only at h
      split at h
      · rename_i hc
        injection h with hL
        simp only [Bool.and_eq_true, decide_eq_true_eq] at hc
        omega
      · exact absurd h (by simp)
  · exact absurd h (by simp)

lemma subSegs_id (f : List Char → List Char) (segs : List Seg)
    (hf : ∀ tk, Seg.tok tk ∈ segs → f tk = tk) :
    subSegs f segs = ((segs.map Seg.orig).flatten) := by
  induction segs with
  | nil => rfl
  | cons sg rest ih =>
    have hrest : ∀ tk, Seg.tok tk ∈ rest → f tk = tk :=
      fun tk htk => hf tk (List.mem_cons_of_mem _ htk)
    cases sg with
    | gap g =>
      simp only [subSegs, List.map_cons, List.flatten_cons, Seg.orig] at ih ⊢
      rw [ih hrest]
    | tok tk =>
      simp only [subSegs, List.map_cons, List.flatten_cons, Seg.orig] at ih ⊢
      rw [ih hrest, hf tk (List.mem_cons_self _ _)]

/-- C9: the substitution pass decomposes the text into gaps and regex
matches whose concatenation is the input; the output replaces each
matched token by the `_replace` policy and keeps every gap unchanged;
the policy keeps ignored tokens, rewrites positive conversions to
decimal, and keeps failed conversions; if every matched token is
ignored or fails, the output equals the input.  Concretely, "see XIV
now" becomes "see 14 now", an ignored "XIV" is kept, and "Ph.D." is
untouched (guarded context). -/
theorem claim9_roman_substitution :
    (∀ txt : List Char,
      (((scanSegs (romanMatchAt txt) txt).map Seg.orig).flatten = txt)) ∧
    (∀ (ign : List (List Char)) (txt : List Char),
      convert_roman_numerals ign txt =
        subSegs (romanReplacePolicy ign) (scanSegs (romanMatchAt txt) txt)) ∧
    (∀ (ign : List (List Char)) (tok : List Char),
      upperStr tok ∈ ign → romanReplacePolicy ign tok = tok) ∧
    (∀ (ign : List (List Char)) (tok : List Char) (v : Int),
      upperStr tok ∉ ign → roman_to_arabic tok = some v → 0 < v →
      romanReplacePolicy ign tok = intDecimal v) ∧
    (∀ (ign : List (List Char)) (tok : List Char),
      upperStr tok ∉ ign → roman_to_arabic tok = none →
      romanReplacePolicy ign tok = tok) ∧
    (∀ (ign : List (List Char)) (txt : List Char),
      (∀ tk, Seg.tok tk ∈ scanSegs (romanMatchAt txt) txt →
        romanReplacePolicy ign tk = tk) →
      convert_roman_numerals ign txt = txt) ∧
    convert_roman_numerals [] (("see XIV now").data) = ("see 14 now").data ∧
    convert_roman_numerals [("XIV").data] (("see XIV now").data) =
      ("see XIV now").data ∧
    convert_roman_numerals [] (("Ph.D.").data) = ("Ph.D.").data := by
  refine ⟨?_, ?_, ?_, ?_, ?_, ?_, by decide, by decide, by decide⟩
  · intro txt
    exact scanSegs_reconstruct (fun i L h => romanMatchAt_pos h) txt
  · intro ign txt
    rfl
  · intro ign tok hig
    unfold romanReplacePolicy
    rw [if_pos hig]
  · intro ign tok v hig hconv hv
    unfold romanReplacePolicy
    rw [if_neg hig, hconv]
    dsimp only
    rw [if_pos hv]
  · intro ign tok hig hconv
    unfold romanReplacePolicy
    rw [if_neg hig, hconv]
  · intro ign txt hall
    unfold convert_roman_numerals reSub
    rw [subSegs_id _ _ hall]
    exact scanSegs_reconstruct (fun i L h => romanMatchAt_pos h) txt

/-- Witness for C9, applying the quantified parts at concrete inputs. -/
theorem claim9_roman_sub_witness :
    romanReplacePolicy [("XIV").data] (("XIV").data) = ("XIV").data ∧
    romanReplacePolicy [] (("XIV").data) = intDecimal 14 ∧
    romanReplacePolicy [] (("VX").data) = ("VX").data ∧
    convert_roman_numerals [] (("no numerals here!").data) =
      ("no numerals here!").data :=
  ⟨claim9_roman_substitution.2.2.1 [("XIV").data] (("XIV").data) (by decide),
   claim9_roman_substitution.2.2.2.1 [] (("XIV").data) 14 (by decide) (by decide)
     (by decide),
   claim9_roman_substitution.2.2.2.2.1 [] (("VX").data) (by decide) (by decide),
   claim9_roman_substitution.2.2.2.2.2.1 [] (("no numerals here!").data)
     (by
       intro tk htk
       have hsegs : scanSegs (romanMatchAt (("no numerals here!").data))
           (("no numerals here!").data) =
           [Seg.gap (("no numerals here!").data)] := by decide
       rw [hsegs] at htk
       exact Seg.noConfusion (List.mem_singleton.mp htk))⟩

/-- C6 (claim is right, code is wrong): a missing file yields the
fresh empty configuration, and the `except` handler does clear
choices, replacements, periods, ignore, lowercase and the default
directory — but it omits `roman_ignore_set` (despite its own comment
"Ensure sets/dicts are empty in case of error"), so a failure after a
`# ROMAN_IGNORE` entry was parsed returns a configuration with a
non-empty `roman_ignore_set`.  The failing input is a data file whose
ROMAN_IGNORE section precedes a DEFAULT_FILE_DIR line such as
`~no_such_user/dir` (whose `Path.expanduser()` raises mid-parse). -/
theorem claim6_load_failure_roman_not_reset :
    load_data_file (fun _ => false) none none = emptyConfig ∧
    (∀ (isDir : List Char → Bool) (lines : List (List Char)) (k : Nat),
      (load_data_file isDir (some lines) (some k)).choices = [] ∧
      (load_data_file isDir (some lines) (some k)).replacements = [] ∧
      (load_data_file isDir (some lines) (some k)).periods = [] ∧
      (load_data_file isDir (some lines) (some k)).ignoreSet = [] ∧
      (load_data_file isDir (some lines) (some k)).lowercaseSet = [] ∧
      (load_data_file isDir (some lines) (some k)).defaultDir = none) ∧
    (load_data_file (fun _ => false)
      (some [("# ROMAN_IGNORE\n").data, ("x\n").data,
        ("# DEFAULT_FILE_DIR\n").data, ("~no_such_user/dir\n").data])
      (some 3)).romanIgnoreSet = [("X").data] ∧
    [("X").data] ≠ ([] : List (List Char)) := by
  refine ⟨rfl, ?_, by decide, by decide⟩
  intro isDir lines k
  exact ⟨rfl, rfl, rfl, rfl, rfl, rfl⟩

/-- C3 counterexample: a config file in which `# CAP_IGNORE` occurs
twice.  Loading collects both ranges' sequences; saving back the
unchanged sets triggers the rewrite at the first marker but jumps to
the end of the recorded (last) range, dropping the whole `# CHOICE`
section in between — so a line outside the two target sections'
content ranges is not copied. -/
theorem claim3_counterexample_duplicate_marker :
    save_caps_data_file
        (parseDataLines (fun _ => false)
          [("# CAP_IGNORE\n").data, ("B\n").data, ("# CHOICE\n").data,
            ("x -> y\n").data, ("# CAP_IGNORE\n").data, ("A\n").data]).ignoreSet
        (parseDataLines (fun _ => false)
          [("# CAP_IGNORE\n").data, ("B\n").data, ("# CHOICE\n").data,
            ("x -> y\n").data, ("# CAP_IGNORE\n").data, ("A\n").data]).lowercaseSet
        [("# CAP_IGNORE\n").data, ("B\n").data, ("# CHOICE\n").data,
          ("x -> y\n").data, ("# CAP_IGNORE\n").data, ("A\n").data] =
      [("# CAP_IGNORE\n").data, ("A\n").data, ("B\n").data] ∧
    ("# CHOICE\n").data ∈
      [("# CAP_IGNORE\n").data, ("B\n").data, ("# CHOICE\n").data,
        ("x -> y\n").data, ("# CAP_IGNORE\n").data, ("A\n").data] ∧
    ("# CHOICE\n").data ∉ [("# CAP_IGNORE\n").data, ("A\n").data, ("B\n").data] := by
  refine ⟨by decide, by decide, by decide⟩

lemma dictLookup_insert_self {α β : Type} [DecidableEq α] (k : α) (v : β)
    (l : List (α × β)) : dictLookup k (dictInsert k v l) = some v := by
  induction l with
  | nil => simp [dictInsert, dictLookup]
  | cons p rest ih =>
    unfold dictInsert
    split
    · simp [dictLookup]
    · rename_i hne
      unfold dictLookup at ih ⊢
      rw [List.find?_cons_of_neg _ (by simpa using hne)]
      exact ih

lemma dictLookup_insert_ne {α β : Type} [DecidableEq α] {k k2 : α} (v : β)
    (l : List (α × β)) (h : k ≠ k2) :
    dictLookup k (dictInsert k2 v l) = dictLookup k l := by
  induction l with
  | nil => simp [dictInsert, dictLookup, List.find?_cons, Ne.symm h]
  | cons p rest ih =>
    unfold dictInsert
    split
    · rename_i hpk
      unfold dictLookup
      rw [List.find?_cons_of_neg _ (by simpa using Ne.symm h),
        List.find?_cons_of_neg _ (by simp only [hpk, decide_eq_true_eq]; exact Ne.symm h)]
    · by_cases hpk : p.1 = k
      · unfold dictLookup
        rw [List.find?_cons_of_pos _ (by simpa using hpk),
          List.find?_cons_of_pos _ (by simpa using hpk)]
      · unfold dictLookup at ih ⊢
        rw [List.find?_cons_of_neg _ (by simpa using hpk),
          List.find?_cons_of_neg _ (by simpa using hpk)]
        exact ih

lemma scanFlush_lookup {tX : SectionTag} (acc : List (SectionTag × (Nat × Nat)))
    (curN : Option SectionTag) (curS : Option Nat) (i : Nat)
    (h : curN ≠ some tX) :
    dictLookup tX (scanFlush acc curN curS i) = dictLookup tX acc := by
  unfold scanFlush
  cases curN with
  | none => rfl
  | some nm =>
    cases curS with
    | none => rfl
    | some sidx =>
      exact dictLookup_insert_ne _ _ (fun he => h (by rw [he]))

lemma markerTagSave_eq_ignore {st : List Char}
    (h : markerTagSave st = some SectionTag.ignore) : st = ignoreMarker := by
  unfold markerTagSave at h
  split_ifs at h <;> first | assumption | (injection h with h; exact absurd h (by decide))

lemma markerTagSave_eq_lowercase {st : List Char}
    (h : markerTagSave st = some SectionTag.lowercase) : st = lowercaseMarker := by
  unfold markerTagSave at h
  split_ifs at h <;> first | assumption | (injection h with h; exact absurd h (by decide))

/-- Scanning a segment none of whose lines is a `# CAP_IGNORE` or
`# UPPER_TO_LOWER` marker neither touches those two dictionary entries
nor leaves one of those sections open. -/
lemma scanPhase (t1 t2 : SectionTag)
    (ht1 : ∀ st : List Char, markerTagSave st = some t1 → st = ignoreMarker ∨ st = lowercaseMarker)
    (ht2 : ∀ st : List Char, markerTagSave st = some t2 → st = ignoreMarker ∨ st = lowercaseMarker)
    (seg : List (List Char)) :
    ∀ (rest : List (List Char)) (i : Nat) (acc : List (SectionTag × (Nat × Nat)))
      (curN : Option SectionTag) (curS : Option Nat),
    (∀ l ∈ seg, stripBom (pyStrip l) ≠ ignoreMarker ∧
      stripBom (pyStrip l) ≠ lowercaseMarker) →
    curN ≠ some t1 → curN ≠ some t2 →
    ∃ acc' curN' curS',
      scanIndicesAux (seg ++ rest) i acc curN curS =
        scanIndicesAux rest (i + seg.length) acc' curN' curS' ∧
      dictLookup t1 acc' = dictLookup t1 acc ∧
      dictLookup t2 acc' = dictLookup t2 acc ∧
      curN' ≠ some t1 ∧ curN' ≠ some t2 := by
  induction seg with
  | nil =>
    intro rest i acc curN curS hseg h1 h2
    exact ⟨acc, curN, curS, by simp, rfl, rfl, h1, h2⟩
  | cons line seg ih =>
    intro rest i acc curN curS hseg h1 h2
    have hline := hseg line (List.mem_cons_self _ _)
    have hsegrest : ∀ l ∈ seg, stripBom (pyStrip l) ≠ ignoreMarker ∧
        stripBom (pyStrip l) ≠ lowercaseMarker :=
      fun l hl => hseg l (List.mem_cons_of_mem _ hl)
    by_cases hmk : stripBom (pyStrip line) ∈ allSectionMarkers
    · have hstep : scanIndicesAux ((line :: seg) ++ rest) i acc curN curS =
          scanIndicesAux (seg ++ rest) (i + 1) (scanFlush acc curN curS i)
            (markerTagSave (stripBom (pyStrip line))) (some (i + 1)) := by
        show scanIndicesAux (line :: (seg ++ rest)) i acc curN curS = _
        rw [scanIndicesAux]
        simp only [hmk, if_true]
      have hn1 : markerTagSave (stripBom (pyStrip line)) ≠ some t1 := by
        intro hc
        rcases ht1 _ hc with he | he
        · exact hline.1 he
        · exact hline.2 he
      have hn2 : markerTagSave (stripBom (pyStrip line)) ≠ some t2 := by
        intro hc
        rcases ht2 _ hc with he | he
        · exact hline.1 he
        · exact hline.2 he
      obtain ⟨acc', curN', curS', heq, hl1, hl2, hc1, hc2⟩ :=
        ih (rest) (i + 1) (scanFlush acc curN curS i)
          (markerTagSave (stripBom (pyStrip line))) (some (i + 1)) hsegrest hn1 hn2
      refine ⟨acc', curN', curS', ?_, ?_, ?_, hc1, hc2⟩
      · rw [hstep, heq]
        congr 1
        simp
        omega
      · rw [hl1, scanFlush_lookup _ _ _ _ h1]
      · rw [hl2, scanFlush_lookup _ _ _ _ h2]
    · have hstep : scanIndicesAux ((line :: seg) ++ rest) i acc curN curS =
          scanIndicesAux (seg ++ rest) (i + 1) acc curN curS := by
        show scanIndicesAux (line :: (seg ++ rest)) i acc curN curS = _
        rw [scanIndicesAux]
        simp only [hmk, if_false]
      obtain ⟨acc', curN', curS', heq, hl1, hl2, hc1, hc2⟩ :=
        ih rest (i + 1) acc curN curS hsegrest h1 h2
      refine ⟨acc', curN', curS', ?_, hl1, hl2, hc1, hc2⟩
      rw [hstep, heq]
      congr 1
      simp
      omega

/-- Scanning a segment with no marker lines at all leaves the scan
state untouched. -/
lemma scanContent (seg : List (List Char)) :
    ∀ (rest : List (List Char)) (i : Nat) (acc : List (SectionTag × (Nat × Nat)))
      (curN : Option SectionTag) (curS : Option Nat),
    (∀ l ∈ seg, stripBom (pyStrip l) ∉ allSectionMarkers) →
    scanIndicesAux (seg ++ rest) i acc curN curS =
      scanIndicesAux rest (i + seg.length) acc curN curS := by
  induction seg with
  | nil => intro rest i acc curN curS hseg; simp
  | cons line seg ih =>
    intro rest i acc curN curS hseg
    have hline := hseg line (List.mem_cons_self _ _)
    have hstep : scanIndicesAux ((line :: seg) ++ rest) i acc curN curS =
        scanIndicesAux (seg ++ rest) (i + 1) acc curN curS := by
      show scanIndicesAux (line :: (seg ++ rest)) i acc curN curS = _
      rw [scanIndicesAux]
      simp only [hline, if_false]
    rw [hstep, ih rest (i + 1) acc curN curS
      (fun l hl => hseg l (List.mem_cons_of_mem _ hl))]
    congr 1
    simp
    omega

/-- Step of the scan at a marker line. -/
lemma scanStep_marker (line : List Char) (rest : List (List Char)) (i : Nat)
    (acc : List (SectionTag × (Nat × Nat))) (curN : Option SectionTag)
    (curS : Option Nat) (hmk : stripBom (pyStrip line) ∈ allSectionMarkers) :
    scanIndicesAux (line :: rest) i acc curN curS =
      scanIndicesAux rest (i + 1) (scanFlush acc curN curS i)
        (markerTagSave (stripBom (pyStrip line))) (some (i + 1)) := by
  rw [scanIndicesAux]
  simp only [hmk, if_true]

/-- Tail of the boundary scan from just after the second target
marker: the second target's range is recorded as its content range and
the first target's recorded entry survives. -/
lemma scanTail (t1 t2 : SectionTag)
    (ht1 : ∀ st : List Char,
      markerTagSave st = some t1 → st = ignoreMarker ∨ st = lowercaseMarker)
    (ht2 : ∀ st : List Char,
      markerTagSave st = some t2 → st = ignoreMarker ∨ st = lowercaseMarker)
    (hne : t1 ≠ t2) (CL R : List (List Char))
    (hCL : ∀ l ∈ CL, stripBom (pyStrip l) ∉ allSectionMarkers)
    (hR : ∀ l ∈ R, stripBom (pyStrip l) ≠ ignoreMarker ∧
      stripBom (pyStrip l) ≠ lowercaseMarker)
    (hR0 : R = [] ∨ ∃ r rs, R = r :: rs ∧ stripBom (pyStrip r) ∈ allSectionMarkers)
    (A : List (SectionTag × (Nat × Nat))) (v1 : Nat × Nat)
    (hA1 : dictLookup t1 A = some v1) (hA2 : dictLookup t2 A = none) (j : Nat) :
    dictLookup t1 (scanIndicesAux (CL ++ R) (j + 1) A (some t2) (some (j + 1))) =
      some v1 ∧
    dictLookup t2 (scanIndicesAux (CL ++ R) (j + 1) A (some t2) (some (j + 1))) =
      some (j + 1, j + 1 + CL.length) := by
  rw [scanContent CL _ _ _ _ _ hCL]
  have hfl : scanFlush A (some t2) (some (j + 1)) (j + 1 + CL.length) =
      dictInsert t2 (j + 1, j + 1 + CL.length) A := rfl
  rcases hR0 with rfl | ⟨r, rs, rfl, hrmk⟩
  · rw [scanIndicesAux, hfl]
    exact ⟨by rw [dictLookup_insert_ne _ _ hne, hA1],
      by rw [dictLookup_insert_self]⟩
  · rw [scanStep_marker r _ _ _ _ _ hrmk, hfl]
    have hr0 := hR r (List.mem_cons_self _ _)
    have hrtag1 : markerTagSave (stripBom (pyStrip r)) ≠ some t1 :=
      fun hc => (ht1 _ hc).elim hr0.1 hr0.2
    have hrtag2 : markerTagSave (stripBom (pyStrip r)) ≠ some t2 :=
      fun hc => (ht2 _ hc).elim hr0.1 hr0.2
    obtain ⟨acc4, curN4, curS4, heq4, hl4a, hl4b, hc4a, hc4b⟩ :=
      scanPhase t1 t2 ht1 ht2 rs [] (j + 1 + CL.length + 1)
        (dictInsert t2 (j + 1, j + 1 + CL.length) A)
        (markerTagSave (stripBom (pyStrip r))) (some (j + 1 + CL.length + 1))
        (fun l hl => hR l (List.mem_cons_of_mem _ hl)) hrtag1 hrtag2
    rw [show scanIndicesAux rs (j + 1 + CL.length + 1)
        (dictInsert t2 (j + 1, j + 1 + CL.length) A)
        (markerTagSave (stripBom (pyStrip r)))
        (some (j + 1 + CL.length + 1)) =
      scanIndicesAux (rs ++ []) (j + 1 + CL.length + 1)
        (dictInsert t2 (j + 1, j + 1 + CL.length) A)
        (markerTagSave (stripBom (pyStrip r)))
        (some (j + 1 + CL.length + 1)) by rw [List.append_nil]]
    rw [heq4, scanIndicesAux]
    constructor
    · rw [scanFlush_lookup _ _ _ _ hc4a, hl4a,
        dictLookup_insert_ne _ _ hne, hA1]
    · rw [scanFlush_lookup _ _ _ _ hc4b, hl4b, dictLookup_insert_self]

/-- Boundary scan on a file holding the two target sections exactly
once (in either order, generically in `t1`/`t2`), with other sections
anywhere around them: the recorded ranges of the two target sections
are exactly their content ranges. -/
lemma findSectionIndices_two (t1 t2 : SectionTag) (mk1 mk2 : List Char)
    (ht1 : ∀ st : List Char,
      markerTagSave st = some t1 → st = ignoreMarker ∨ st = lowercaseMarker)
    (ht2 : ∀ st : List Char,
      markerTagSave st = some t2 → st = ignoreMarker ∨ st = lowercaseMarker)
    (htag1 : markerTagSave mk1 = some t1) (htag2 : markerTagSave mk2 = some t2)
    (hmem1 : mk1 ∈ allSectionMarkers) (hmem2 : mk2 ∈ allSectionMarkers)
    (hne : t1 ≠ t2)
    (P CI Q CL R : List (List Char)) (m1 m2 : List Char)
    (hm1 : stripBom (pyStrip m1) = mk1) (hm2 : stripBom (pyStrip m2) = mk2)
    (hP : ∀ l ∈ P, stripBom (pyStrip l) ≠ ignoreMarker ∧
      stripBom (pyStrip l) ≠ lowercaseMarker)
    (hQ : ∀ l ∈ Q, stripBom (pyStrip l) ≠ ignoreMarker ∧
      stripBom (pyStrip l) ≠ lowercaseMarker)
    (hR : ∀ l ∈ R, stripBom (pyStrip l) ≠ ignoreMarker ∧
      stripBom (pyStrip l) ≠ lowercaseMarker)
    (hCI : ∀ l ∈ CI, stripBom (pyStrip l) ∉ allSectionMarkers)
    (hCL : ∀ l ∈ CL, stripBom (pyStrip l) ∉ allSectionMarkers)
    (hQ0 : Q = [] ∨ ∃ q qs, Q = q :: qs ∧ stripBom (pyStrip q) ∈ allSectionMarkers)
    (hR0 : R = [] ∨ ∃ r rs, R = r :: rs ∧ stripBom (pyStrip r) ∈ allSectionMarkers) :
    dictLookup t1 (findSectionIndices (P ++ m1 :: (CI ++ (Q ++ m2 :: (CL ++ R))))) =
      some (P.length + 1, P.length + 1 + CI.length) ∧
    dictLookup t2 (findSectionIndices (P ++ m1 :: (CI ++ (Q ++ m2 :: (CL ++ R))))) =
      some (P.length + CI.length + Q.length + 2,
        P.length + CI.length + Q.length + 2 + CL.length) := by
  have hnotTag : ∀ st : List Char, st ≠ ignoreMarker → st ≠ lowercaseMarker →
      markerTagSave st ≠ some t1 ∧ markerTagSave st ≠ some t2 := by
    intro st hig hlc
    exact ⟨fun hc => (ht1 st hc).elim hig hlc, fun hc => (ht2 st hc).elim hig hlc⟩
  unfold findSectionIndices
  obtain ⟨acc1, curN1, curS1, heq1, hl1a, hl1b, hc1a, hc1b⟩ :=
    scanPhase t1 t2 ht1 ht2 P (m1 :: (CI ++ (Q ++ m2 :: (CL ++ R)))) 0 [] none none
      hP (by simp) (by simp)
  rw [heq1]
  rw [scanStep_marker m1 _ _ _ _ _ (by rw [hm1]; exact hmem1)]
  rw [hm1, htag1]
  rw [scanContent CI _ _ _ _ _ hCI]
  have hacc2a : dictLookup t1 (scanFlush acc1 curN1 curS1 (0 + P.length)) = none := by
    rw [scanFlush_lookup _ _ _ _ hc1a, hl1a]; rfl
  have hacc2b : dictLookup t2 (scanFlush acc1 curN1 curS1 (0 + P.length)) = none := by
    rw [scanFlush_lookup _ _ _ _ hc1b, hl1b]; rfl
  rcases hQ0 with rfl | ⟨q, qs, rfl, hqmk⟩
  · -- no section between the two targets
    simp only [List.nil_append]
    rw [scanStep_marker m2 _ _ _ _ _ (by rw [hm2]; exact hmem2)]
    rw [hm2, htag2]
    have hfl1 : scanFlush (scanFlush acc1 curN1 curS1 (0 + P.length)) (some t1)
        (some (0 + P.length + 1)) (0 + P.length + 1 + CI.length) =
        dictInsert t1 (0 + P.length + 1, 0 + P.length + 1 + CI.length)
          (scanFlush acc1 curN1 curS1 (0 + P.length)) := rfl
    rw [hfl1]
    obtain ⟨ha, hb⟩ := scanTail t1 t2 ht1 ht2 hne CL R hCL hR hR0
      (dictInsert t1 (0 + P.length + 1, 0 + P.length + 1 + CI.length)
        (scanFlush acc1 curN1 curS1 (0 + P.length)))
      (0 + P.length + 1, 0 + P.length + 1 + CI.length)
      (dictLookup_insert_self _ _ _)
      (by rw [dictLookup_insert_ne _ _ (Ne.symm hne), hacc2b])
      (0 + P.length + 1 + CI.length)
    refine ⟨?_, ?_⟩
    · rw [ha]
      simp only [Option.some.injEq, Prod.mk.injEq]
      omega
    · rw [hb]
      simp only [Option.some.injEq, Prod.mk.injEq, List.length_nil]
      omega
  · -- another section sits between the two targets
    rw [List.cons_append, scanStep_marker q _ _ _ _ _ hqmk]
    have hfl1 : scanFlush (scanFlush acc1 curN1 curS1 (0 + P.length)) (some t1)
        (some (0 + P.length + 1)) (0 + P.length + 1 + CI.length) =
        dictInsert t1 (0 + P.length + 1, 0 + P.length + 1 + CI.length)
          (scanFlush acc1 curN1 curS1 (0 + P.length)) := rfl
    rw [hfl1]
    have hq0 := hQ q (List.mem_cons_self _ _)
    have hqtag := hnotTag _ hq0.1 hq0.2
    obtain ⟨acc4, curN4, curS4, heq4, hl4a, hl4b, hc4a, hc4b⟩ :=
      scanPhase t1 t2 ht1 ht2 qs (m2 :: (CL ++ R))
        (0 + P.length + 1 + CI.length + 1)
        (dictInsert t1 (0 + P.length + 1, 0 + P.length + 1 + CI.length)
          (scanFlush acc1 curN1 curS1 (0 + P.length)))
        (markerTagSave (stripBom (pyStrip q)))
        (some (0 + P.length + 1 + CI.length + 1))
        (fun l hl => hQ l (List.mem_cons_of_mem _ hl)) hqtag.1 hqtag.2
    rw [heq4]
    rw [scanStep_marker m2 _ _ _ _ _ (by rw [hm2]; exact hmem2)]
    rw [hm2, htag2]
    obtain ⟨ha, hb⟩ := scanTail t1 t2 ht1 ht2 hne CL R hCL hR hR0
      (scanFlush acc4 curN4 curS4 (0 + P.length + 1 + CI.length + 1 + qs.length))
      (0 + P.length + 1, 0 + P.length + 1 + CI.length)
      (by rw [scanFlush_lookup _ _ _ _ hc4a, hl4a, dictLookup_insert_self])
      (by rw [scanFlush_lookup _ _ _ _ hc4b, hl4b,
        dictLookup_insert_ne _ _ (Ne.symm hne), hacc2b])
      (0 + P.length + 1 + CI.length + 1 + qs.length)
    refine ⟨?_, ?_⟩
    · rw [ha]
      simp only [Option.some.injEq, Prod.mk.injEq]
      omega
    · rw [hb]
      simp only [Option.some.injEq, Prod.mk.injEq, List.length_cons]
      omega

lemma pyStrip_ne_ig {l : List Char}
    (h : stripBom (pyStrip l) ≠ ignoreMarker) : pyStrip l ≠ ignoreMarker :=
  fun hc => h (by rw [hc]; decide)

lemma pyStrip_ne_lc {l : List Char}
    (h : stripBom (pyStrip l) ≠ lowercaseMarker) : pyStrip l ≠ lowercaseMarker :=
  fun hc => h (by rw [hc]; decide)

/-- The rewrite loop returns as soon as the index runs off the file. -/
lemma saveRewrite_end (lines igc lcc : List (List Char))
    (idxs : List (SectionTag × (Nat × Nat))) (fuel i : Nat)
    (acc : List (List Char)) (hi hl : Bool) (h : lines.length ≤ i) :
    saveRewriteAux lines igc lcc idxs fuel i acc hi hl = (acc, hi, hl) := by
  cases fuel with
  | zero => rfl
  | succ f =>
    rw [saveRewriteAux, List.get?_eq_none.mpr h]

/-- The rewrite loop copies a run of lines that are not target
markers verbatim. -/
lemma saveRewrite_seg (lines igc lcc : List (List Char))
    (idxs : List (SectionTag × (Nat × Nat))) (seg : List (List Char)) :
    ∀ (fuel i : Nat) (acc : List (List Char)) (hi hl : Bool),
    lines.drop i = seg ++ lines.drop (i + seg.length) →
    (∀ l ∈ seg, pyStrip l ≠ ignoreMarker ∧ pyStrip l ≠ lowercaseMarker) →
    saveRewriteAux lines igc lcc idxs (fuel + seg.length) i acc hi hl =
      saveRewriteAux lines igc lcc idxs fuel (i + seg.length) (acc ++ seg) hi hl := by
  induction seg with
  | nil =>
    intro fuel i acc hi hl hdrop hseg
    simp
  | cons line seg ih =>
    intro fuel i acc hi hl hdrop hseg
    have hline := hseg line (List.mem_cons_self _ _)
    have hget : lines.get? i = some line := by
      have h0 : (lines.drop i).get? 0 = lines.get? (i + 0) := List.get?_drop _ _ _
      rw [hdrop] at h0
      simpa using h0.symm
    have hstep : saveRewriteAux lines igc lcc idxs
        (fuel + (line :: seg).length) i acc hi hl =
        saveRewriteAux lines igc lcc idxs (fuel + seg.length) (i + 1)
          (acc ++ [line]) hi hl := by
      show saveRewriteAux lines igc lcc idxs (fuel + seg.length + 1) i acc hi hl = _
      rw [saveRewriteAux, hget]
      dsimp only
      rw [if_neg (fun hc => hline.1 hc.1), if_neg (fun hc => hline.2 hc.1)]
    rw [hstep]
    have hdrop2 : lines.drop (i + 1) = seg ++ lines.drop (i + 1 + seg.length) := by
      have ht : (lines.drop i).tail = lines.drop (i + 1) := List.tail_drop _ _
      rw [hdrop] at ht
      rw [← ht]
      simp only [List.cons_append, List.tail_cons]
      rw [show i + (line :: seg).length = i + 1 + seg.length by simp; omega]
    rw [ih fuel (i + 1) (acc ++ [line]) hi hl hdrop2
      (fun l hl2 => hseg l (List.mem_cons_of_mem _ hl2))]
    rw [show i + 1 + seg.length = i + (line :: seg).length by simp; omega]
    simp

/-- The rewrite loop at a `# CAP_IGNORE` marker line: copy the marker,
emit the serialized ignore entries, jump to the recorded section
end. -/
lemma saveRewrite_step_ig (lines igc lcc : List (List Char))
    (idxs : List (SectionTag × (Nat × Nat))) (fuel i : Nat)
    (acc : List (List Char)) (hi hl : Bool) (m : List Char)
    (hget : lines.get? i = some m) (hm : pyStrip m = ignoreMarker)
    (e : Nat × Nat) (hlk : dictLookup SectionTag.ignore idxs = some e) :
    saveRewriteAux lines igc lcc idxs (fuel + 1) i acc hi hl =
      saveRewriteAux lines igc lcc idxs fuel e.2 (acc ++ m :: igc) true hl := by
  rw [saveRewriteAux, hget]
  dsimp only
  rw [if_pos ⟨hm, by rw [hlk]; rfl⟩, hlk]
  rfl

/-- The rewrite loop at a `# CAP_LOWERCASE` marker line. -/
lemma saveRewrite_step_lc (lines igc lcc : List (List Char))
    (idxs : List (SectionTag × (Nat × Nat))) (fuel i : Nat)
    (acc : List (List Char)) (hi hl : Bool) (m : List Char)
    (hget : lines.get? i = some m) (hm : pyStrip m = lowercaseMarker)
    (e : Nat × Nat) (hlk : dictLookup SectionTag.lowercase idxs = some e) :
    saveRewriteAux lines igc lcc idxs (fuel + 1) i acc hi hl =
      saveRewriteAux lines igc lcc idxs fuel e.2 (acc ++ m :: lcc) hi true := by
  rw [saveRewriteAux, hget]
  dsimp only
  rw [if_neg (fun hc => absurd (hm ▸ hc.1) (by decide))]
  rw [if_pos ⟨hm, by rw [hlk]; rfl⟩, hlk]
  rfl

lemma get?_of_drop_cons {α : Type} {l : List α} {i : Nat} {a : α} {t : List α}
    (h : l.drop i = a :: t) : l.get? i = some a := by
  have h0 : (l.drop i).get? 0 = l.get? (i + 0) := List.get?_drop _ _ _
  rw [h] at h0
  simpa using h0.symm

lemma appendSection_handled (c : List (List Char)) (m : List Char)
    (cl nl : List (List Char)) : appendSection true c m cl nl = nl := rfl

/-- Partial-rewrite save on a well-formed file whose `# CAP_IGNORE`
section comes before its `# UPPER_TO_LOWER` section: the two content
ranges are replaced by the freshly serialized sorted sets and every
other line is copied verbatim. -/
lemma save_partial_ig_lc (ig lc : List (List Char))
    (P CI Q CL R : List (List Char)) (m1 m2 : List Char)
    (hm1 : pyStrip m1 = ignoreMarker) (hm2 : pyStrip m2 = lowercaseMarker)
    (hP : ∀ l ∈ P, stripBom (pyStrip l) ≠ ignoreMarker ∧
      stripBom (pyStrip l) ≠ lowercaseMarker)
    (hQ : ∀ l ∈ Q, stripBom (pyStrip l) ≠ ignoreMarker ∧
      stripBom (pyStrip l) ≠ lowercaseMarker)
    (hR : ∀ l ∈ R, stripBom (pyStrip l) ≠ ignoreMarker ∧
      stripBom (pyStrip l) ≠ lowercaseMarker)
    (hCI : ∀ l ∈ CI, stripBom (pyStrip l) ∉ allSectionMarkers)
    (hCL : ∀ l ∈ CL, stripBom (pyStrip l) ∉ allSectionMarkers)
    (hQ0 : Q = [] ∨ ∃ q qs, Q = q :: qs ∧ stripBom (pyStrip q) ∈ allSectionMarkers)
    (hR0 : R = [] ∨ ∃ r rs, R = r :: rs ∧ stripBom (pyStrip r) ∈ allSectionMarkers) :
    save_caps_data_file ig lc (P ++ m1 :: (CI ++ (Q ++ m2 :: (CL ++ R)))) =
      P ++ m1 :: (((sortStrings ig).map fun sq => sq ++ ['\n']) ++
        (Q ++ m2 :: (((sortStrings lc).map fun sq => sq ++ ['\n']) ++ R))) := by
  have hm1s : stripBom (pyStrip m1) = ignoreMarker := by rw [hm1]; decide
  have hm2s : stripBom (pyStrip m2) = lowercaseMarker := by rw [hm2]; decide
  obtain ⟨hlk1, hlk2⟩ :=
    findSectionIndices_two SectionTag.ignore SectionTag.lowercase
      ignoreMarker lowercaseMarker
      (fun st h => Or.inl (markerTagSave_eq_ignore h))
      (fun st h => Or.inr (markerTagSave_eq_lowercase h))
      (by decide) (by decide) (by decide) (by decide) (by decide)
      P CI Q CL R m1 m2 hm1s hm2s hP hQ hR hCI hCL hQ0 hR0
  have hd0 : (P ++ m1 :: (CI ++ (Q ++ m2 :: (CL ++ R)))).drop (0 + P.length) =
      m1 :: (CI ++ (Q ++ m2 :: (CL ++ R))) := by
    rw [Nat.zero_add, List.drop_left]
  have hdP : (P ++ m1 :: (CI ++ (Q ++ m2 :: (CL ++ R)))).drop 0 =
      P ++ (P ++ m1 :: (CI ++ (Q ++ m2 :: (CL ++ R)))).drop (0 + P.length) := by
    rw [List.drop_zero, hd0]
  have hdCI : (P ++ m1 :: (CI ++ (Q ++ m2 :: (CL ++ R)))).drop
      (P.length + 1 + CI.length) = Q ++ m2 :: (CL ++ R) := by
    rw [show P ++ m1 :: (CI ++ (Q ++ m2 :: (CL ++ R))) =
      (P ++ m1 :: CI) ++ (Q ++ m2 :: (CL ++ R)) by simp]
    rw [show P.length + 1 + CI.length = (P ++ m1 :: CI).length by
      simp only [List.length_append, List.length_cons]; omega]
    exact List.drop_left _ _
  have hdQend : (P ++ m1 :: (CI ++ (Q ++ m2 :: (CL ++ R)))).drop
      (P.length + 1 + CI.length + Q.length) = m2 :: (CL ++ R) := by
    rw [show P ++ m1 :: (CI ++ (Q ++ m2 :: (CL ++ R))) =
      ((P ++ m1 :: CI) ++ Q) ++ (m2 :: (CL ++ R)) by simp]
    rw [show P.length + 1 + CI.length + Q.length =
      ((P ++ m1 :: CI) ++ Q).length by
      simp only [List.length_append, List.length_cons]; omega]
    exact List.drop_left _ _
  have hdQ : (P ++ m1 :: (CI ++ (Q ++ m2 :: (CL ++ R)))).drop
      (P.length + 1 + CI.length) =
      Q ++ (P ++ m1 :: (CI ++ (Q ++ m2 :: (CL ++ R)))).drop
        (P.length + 1 + CI.length + Q.length) := by
    rw [hdCI, hdQend]
  have hdCL : (P ++ m1 :: (CI ++ (Q ++ m2 :: (CL ++ R)))).drop
      (P.length + CI.length + Q.length + 2 + CL.length) = R := by
    rw [show P ++ m1 :: (CI ++ (Q ++ m2 :: (CL ++ R))) =
      ((P ++ m1 :: CI) ++ Q ++ m2 :: CL) ++ R by simp]
    rw [show P.length + CI.length + Q.length + 2 + CL.length =
      ((P ++ m1 :: CI) ++ Q ++ m2 :: CL).length by
      simp only [List.length_append, List.length_cons]; omega]
    exact List.drop_left _ _
  have hdRend : (P ++ m1 :: (CI ++ (Q ++ m2 :: (CL ++ R)))).drop
      (P.length + CI.length + Q.length + 2 + CL.length + R.length) = [] := by
    apply List.drop_eq_nil_of_le
    simp only [List.length_append, List.length_cons]
    omega
  have hdR : (P ++ m1 :: (CI ++ (Q ++ m2 :: (CL ++ R)))).drop
      (P.length + CI.length + Q.length + 2 + CL.length) =
      R ++ (P ++ m1 :: (CI ++ (Q ++ m2 :: (CL ++ R)))).drop
        (P.length + CI.length + Q.length + 2 + CL.length + R.length) := by
    rw [hdCL, hdRend, List.append_nil]
  have h1 := saveRewrite_seg (P ++ m1 :: (CI ++ (Q ++ m2 :: (CL ++ R))))
    ((sortStrings ig).map fun sq => sq ++ ['\n'])
    ((sortStrings lc).map fun sq => sq ++ ['\n'])
    (findSectionIndices (P ++ m1 :: (CI ++ (Q ++ m2 :: (CL ++ R))))) P
    ((((CI.length + CL.length + 1) + R.length) + 1 + Q.length) + 1) 0 [] false false
    hdP (fun l h => ⟨pyStrip_ne_ig (hP l h).1, pyStrip_ne_lc (hP l h).2⟩)
  have h2 : saveRewriteAux (P ++ m1 :: (CI ++ (Q ++ m2 :: (CL ++ R))))
      ((sortStrings ig).map fun sq => sq ++ ['\n'])
      ((sortStrings lc).map fun sq => sq ++ ['\n'])
      (findSectionIndices (P ++ m1 :: (CI ++ (Q ++ m2 :: (CL ++ R)))))
      ((((CI.length + CL.length + 1) + R.length) + 1 + Q.length) + 1)
      (0 + P.length) ([] ++ P) false false =
      saveRewriteAux (P ++ m1 :: (CI ++ (Q ++ m2 :: (CL ++ R))))
        ((sortStrings ig).map fun sq => sq ++ ['\n'])
        ((sortStrings lc).map fun sq => sq ++ ['\n'])
        (findSectionIndices (P ++ m1 :: (CI ++ (Q ++ m2 :: (CL ++ R)))))
        (((CI.length + CL.length + 1) + R.length) + 1 + Q.length)
        (P.length + 1 + CI.length)
        (([] ++ P) ++ m1 :: ((sortStrings ig).map fun sq => sq ++ ['\n']))
        true false :=
    saveRewrite_step_ig _ _ _ _ _ _ _ _ _ m1 (get?_of_drop_cons hd0) hm1
      (P.length + 1, P.length + 1 + CI.length) hlk1
  have h3 := saveRewrite_seg (P ++ m1 :: (CI ++ (Q ++ m2 :: (CL ++ R))))
    ((sortStrings ig).map fun sq => sq ++ ['\n'])
    ((sortStrings lc).map fun sq => sq ++ ['\n'])
    (findSectionIndices (P ++ m1 :: (CI ++ (Q ++ m2 :: (CL ++ R))))) Q
    (((CI.length + CL.length + 1) + R.length) + 1) (P.length + 1 + CI.length)
    (([] ++ P) ++ m1 :: ((sortStrings ig).map fun sq => sq ++ ['\n'])) true false
    hdQ (fun l h => ⟨pyStrip_ne_ig (hQ l h).1, pyStrip_ne_lc (hQ l h).2⟩)
  have h4 : saveRewriteAux (P ++ m1 :: (CI ++ (Q ++ m2 :: (CL ++ R))))
      ((sortStrings ig).map fun sq => sq ++ ['\n'])
      ((sortStrings lc).map fun sq => sq ++ ['\n'])
      (findSectionIndices (P ++ m1 :: (CI ++ (Q ++ m2 :: (CL ++ R)))))
      (((CI.length + CL.length + 1) + R.length) + 1)
      (P.length + 1 + CI.length + Q.length)
      ((([] ++ P) ++ m1 :: ((sortStrings ig).map fun sq => sq ++ ['\n'])) ++ Q)
      true false =
      saveRewriteAux (P ++ m1 :: (CI ++ (Q ++ m2 :: (CL ++ R))))
        ((sortStrings ig).map fun sq => sq ++ ['\n'])
        ((sortStrings lc).map fun sq => sq ++ ['\n'])
        (findSectionIndices (P ++ m1 :: (CI ++ (Q ++ m2 :: (CL ++ R)))))
        ((CI.length + CL.length + 1) + R.length)
        (P.length + CI.length + Q.length + 2 + CL.length)
        (((([] ++ P) ++ m1 :: ((sortStrings ig).map fun sq => sq ++ ['\n'])) ++ Q)
          ++ m2 :: ((sortStrings lc).map fun sq => sq ++ ['\n'])) true true :=
    saveRewrite_step_lc _ _ _ _ _ _ _ _ _ m2 (get?_of_drop_cons hdQend) hm2
      (P.length + CI.length + Q.length + 2,
        P.length + CI.length + Q.length + 2 + CL.length) hlk2
  have h5 := saveRewrite_seg (P ++ m1 :: (CI ++ (Q ++ m2 :: (CL ++ R))))
    ((sortStrings ig).map fun sq => sq ++ ['\n'])
    ((sortStrings lc).map fun sq => sq ++ ['\n'])
    (findSectionIndices (P ++ m1 :: (CI ++ (Q ++ m2 :: (CL ++ R))))) R
    (CI.length + CL.length + 1) (P.length + CI.length + Q.length + 2 + CL.length)
    (((([] ++ P) ++ m1 :: ((sortStrings ig).map fun sq => sq ++ ['\n'])) ++ Q)
      ++ m2 :: ((sortStrings lc).map fun sq => sq ++ ['\n'])) true true
    hdR (fun l h => ⟨pyStrip_ne_ig (hR l h).1, pyStrip_ne_lc (hR l h).2⟩)
  have h6 := saveRewrite_end (P ++ m1 :: (CI ++ (Q ++ m2 :: (CL ++ R))))
    ((sortStrings ig).map fun sq => sq ++ ['\n'])
    ((sortStrings lc).map fun sq => sq ++ ['\n'])
    (findSectionIndices (P ++ m1 :: (CI ++ (Q ++ m2 :: (CL ++ R)))))
    (CI.length + CL.length + 1)
    (P.length + CI.length + Q.length + 2 + CL.length + R.length)
    ((((([] ++ P) ++ m1 :: ((sortStrings ig).map fun sq => sq ++ ['\n'])) ++ Q)
      ++ m2 :: ((sortStrings lc).map fun sq => sq ++ ['\n'])) ++ R) true true
    (by simp only [List.length_append, List.length_cons]; omega)
  have hres : saveRewriteAux (P ++ m1 :: (CI ++ (Q ++ m2 :: (CL ++ R))))
      ((sortStrings ig).map fun sq => sq ++ ['\n'])
      ((sortStrings lc).map fun sq => sq ++ ['\n'])
      (findSectionIndices (P ++ m1 :: (CI ++ (Q ++ m2 :: (CL ++ R)))))
      ((P ++ m1 :: (CI ++ (Q ++ m2 :: (CL ++ R)))).length + 1) 0 [] false false =
      ((((([] ++ P) ++ m1 :: ((sortStrings ig).map fun sq => sq ++ ['\n'])) ++ Q)
        ++ m2 :: ((sortStrings lc).map fun sq => sq ++ ['\n'])) ++ R,
        true, true) := by
    rw [show (P ++ m1 :: (CI ++ (Q ++ m2 :: (CL ++ R)))).length + 1 =
      ((((CI.length + CL.length + 1) + R.length) + 1 + Q.length) + 1 + P.length)
      by simp only [List.length_append, List.length_cons]; omega]
    rw [h1, h2, h3, h4, h5, h6]
  unfold save_caps_data_file
  dsimp only
  rw [hres]
  show appendSection true _ _ _ (appendSection true _ _ _ _) = _
  rw [appendSection_handled, appendSection_handled]
  simp

/-- Partial-rewrite save, symmetric orientation: the
`# UPPER_TO_LOWER` section comes before the `# CAP_IGNORE` section. -/
lemma save_partial_lc_ig (ig lc : List (List Char))
    (P CI Q CL R : List (List Char)) (m1 m2 : List Char)
    (hm1 : pyStrip m1 = lowercaseMarker) (hm2 : pyStrip m2 = ignoreMarker)
    (hP : ∀ l ∈ P, stripBom (pyStrip l) ≠ ignoreMarker ∧
      stripBom (pyStrip l) ≠ lowercaseMarker)
    (hQ : ∀ l ∈ Q, stripBom (pyStrip l) ≠ ignoreMarker ∧
      stripBom (pyStrip l) ≠ lowercaseMarker)
    (hR : ∀ l ∈ R, stripBom (pyStrip l) ≠ ignoreMarker ∧
      stripBom (pyStrip l) ≠ lowercaseMarker)
    (hCI : ∀ l ∈ CI, stripBom (pyStrip l) ∉ allSectionMarkers)
    (hCL : ∀ l ∈ CL, stripBom (pyStrip l) ∉ allSectionMarkers)
    (hQ0 : Q = [] ∨ ∃ q qs, Q = q :: qs ∧ stripBom (pyStrip q) ∈ allSectionMarkers)
    (hR0 : R = [] ∨ ∃ r rs, R = r :: rs ∧ stripBom (pyStrip r) ∈ allSectionMarkers) :
    save_caps_data_file ig lc (P ++ m1 :: (CI ++ (Q ++ m2 :: (CL ++ R)))) =
      P ++ m1 :: (((sortStrings lc).map fun sq => sq ++ ['\n']) ++
        (Q ++ m2 :: (((sortStrings ig).map fun sq => sq ++ ['\n']) ++ R))) := by
  have hm1s : stripBom (pyStrip m1) = lowercaseMarker := by rw [hm1]; decide
  have hm2s : stripBom (pyStrip m2) = ignoreMarker := by rw [hm2]; decide
  obtain ⟨hlk1, hlk2⟩ :=
    findSectionIndices_two SectionTag.lowercase SectionTag.ignore
      lowercaseMarker ignoreMarker
      (fun st h => Or.inr (markerTagSave_eq_lowercase h))
      (fun st h => Or.inl (markerTagSave_eq_ignore h))
      (by decide) (by decide) (by decide) (by decide) (by decide)
      P CI Q CL R m1 m2 hm1s hm2s hP hQ hR hCI hCL hQ0 hR0
  have hd0 : (P ++ m1 :: (CI ++ (Q ++ m2 :: (CL ++ R)))).drop (0 + P.length) =
      m1 :: (CI ++ (Q ++ m2 :: (CL ++ R))) := by
    rw [Nat.zero_add, List.drop_left]
  have hdP : (P ++ m1 :: (CI ++ (Q ++ m2 :: (CL ++ R)))).drop 0 =
      P ++ (P ++ m1 :: (CI ++ (Q ++ m2 :: (CL ++ R)))).drop (0 + P.length) := by
    rw [List.drop_zero, hd0]
  have hdCI : (P ++ m1 :: (CI ++ (Q ++ m2 :: (CL ++ R)))).drop
      (P.length + 1 + CI.length) = Q ++ m2 :: (CL ++ R) := by
    rw [show P ++ m1 :: (CI ++ (Q ++ m2 :: (CL ++ R))) =
      (P ++ m1 :: CI) ++ (Q ++ m2 :: (CL ++ R)) by simp]
    rw [show P.length + 1 + CI.length = (P ++ m1 :: CI).length by
      simp only [List.length_append, List.length_cons]; omega]
    exact List.drop_left _ _
  have hdQend : (P ++ m1 :: (CI ++ (Q ++ m2 :: (CL ++ R)))).drop
      (P.length + 1 + CI.length + Q.length) = m2 :: (CL ++ R) := by
    rw [show P ++ m1 :: (CI ++ (Q ++ m2 :: (CL ++ R))) =
      ((P ++ m1 :: CI) ++ Q) ++ (m2 :: (CL ++ R)) by simp]
    rw [show P.length + 1 + CI.length + Q.length =
      ((P ++ m1 :: CI) ++ Q).length by
      simp only [List.length_append, List.length_cons]; omega]
    exact List.drop_left _ _
  have hdQ : (P ++ m1 :: (CI ++ (Q ++ m2 :: (CL ++ R)))).drop
      (P.length + 1 + CI.length) =
      Q ++ (P ++ m1 :: (CI ++ (Q ++ m2 :: (CL ++ R)))).drop
        (P.length + 1 + CI.length + Q.length) := by
    rw [hdCI, hdQend]
  have hdCL : (P ++ m1 :: (CI ++ (Q ++ m2 :: (CL ++ R)))).drop
      (P.length + CI.length + Q.length + 2 + CL.length) = R := by
    rw [show P ++ m1 :: (CI ++ (Q ++ m2 :: (CL ++ R))) =
      ((P ++ m1 :: CI) ++ Q ++ m2 :: CL) ++ R by simp]
    rw [show P.length + CI.length + Q.length + 2 + CL.length =
      ((P ++ m1 :: CI) ++ Q ++ m2 :: CL).length by
      simp only [List.length_append, List.length_cons]; omega]
    exact List.drop_left _ _
  have hdRend : (P ++ m1 :: (CI ++ (Q ++ m2 :: (CL ++ R)))).drop
      (P.length + CI.length + Q.length + 2 + CL.length + R.length) = [] := by
    apply List.drop_eq_nil_of_le
    simp only [List.length_append, List.length_cons]
    omega
  have hdR : (P ++ m1 :: (CI ++ (Q ++ m2 :: (CL ++ R)))).drop
      (P.length + CI.length + Q.length + 2 + CL.length) =
      R ++ (P ++ m1 :: (CI ++ (Q ++ m2 :: (CL ++ R)))).drop
        (P.length + CI.length + Q.length + 2 + CL.length + R.length) := by
    rw [hdCL, hdRend, List.append_nil]
  have h1 := saveRewrite_seg (P ++ m1 :: (CI ++ (Q ++ m2 :: (CL ++ R))))
    ((sortStrings ig).map fun sq => sq ++ ['\n'])
    ((sortStrings lc).map fun sq => sq ++ ['\n'])
    (findSectionIndices (P ++ m1 :: (CI ++ (Q ++ m2 :: (CL ++ R))))) P
    ((((CI.length + CL.length + 1) + R.length) + 1 + Q.length) + 1) 0 [] false false
    hdP (fun l h => ⟨pyStrip_ne_ig (hP l h).1, pyStrip_ne_lc (hP l h).2⟩)
  have h2 : saveRewriteAux (P ++ m1 :: (CI ++ (Q ++ m2 :: (CL ++ R))))
      ((sortStrings ig).map fun sq => sq ++ ['\n'])
      ((sortStrings lc).map fun sq => sq ++ ['\n'])
      (findSectionIndices (P ++ m1 :: (CI ++ (Q ++ m2 :: (CL ++ R)))))
      ((((CI.length + CL.length + 1) + R.length) + 1 + Q.length) + 1)
      (0 + P.length) ([] ++ P) false false =
      saveRewriteAux (P ++ m1 :: (CI ++ (Q ++ m2 :: (CL ++ R))))
        ((sortStrings ig).map fun sq => sq ++ ['\n'])
        ((sortStrings lc).map fun sq => sq ++ ['\n'])
        (findSectionIndices (P ++ m1 :: (CI ++ (Q ++ m2 :: (CL ++ R)))))
        (((CI.length + CL.length + 1) + R.length) + 1 + Q.length)
        (P.length + 1 + CI.length)
        (([] ++ P) ++ m1 :: ((sortStrings lc).map fun sq => sq ++ ['\n']))
        false true :=
    saveRewrite_step_lc _ _ _ _ _ _ _ _ _ m1 (get?_of_drop_cons hd0) hm1
      (P.length + 1, P.length + 1 + CI.length) hlk1
  have h3 := saveRewrite_seg (P ++ m1 :: (CI ++ (Q ++ m2 :: (CL ++ R))))
    ((sortStrings ig).map fun sq => sq ++ ['\n'])
    ((sortStrings lc).map fun sq => sq ++ ['\n'])
    (findSectionIndices (P ++ m1 :: (CI ++ (Q ++ m2 :: (CL ++ R))))) Q
    (((CI.length + CL.length + 1) + R.length) + 1) (P.length + 1 + CI.length)
    (([] ++ P) ++ m1 :: ((sortStrings lc).map fun sq => sq ++ ['\n'])) false true
    hdQ (fun l h => ⟨pyStrip_ne_ig (hQ l h).1, pyStrip_ne_lc (hQ l h).2⟩)
  have h4 : saveRewriteAux (P ++ m1 :: (CI ++ (Q ++ m2 :: (CL ++ R))))
      ((sortStrings ig).map fun sq => sq ++ ['\n'])
      ((sortStrings lc).map fun sq => sq ++ ['\n'])
      (findSectionIndices (P ++ m1 :: (CI ++ (Q ++ m2 :: (CL ++ R)))))
      (((CI.length + CL.length + 1) + R.length) + 1)
      (P.length + 1 + CI.length + Q.length)
      ((([] ++ P) ++ m1 :: ((sortStrings lc).map fun sq => sq ++ ['\n'])) ++ Q)
      false true =
      saveRewriteAux (P ++ m1 :: (CI ++ (Q ++ m2 :: (CL ++ R))))
        ((sortStrings ig).map fun sq => sq ++ ['\n'])
        ((sortStrings lc).map fun sq => sq ++ ['\n'])
        (findSectionIndices (P ++ m1 :: (CI ++ (Q ++ m2 :: (CL ++ R)))))
        ((CI.length + CL.length + 1) + R.length)
        (P.length + CI.length + Q.length + 2 + CL.length)
        (((([] ++ P) ++ m1 :: ((sortStrings lc).map fun sq => sq ++ ['\n'])) ++ Q)
          ++ m2 :: ((sortStrings ig).map fun sq => sq ++ ['\n'])) true true :=
    saveRewrite_step_ig _ _ _ _ _ _ _ _ _ m2 (get?_of_drop_cons hdQend) hm2
      (P.length + CI.length + Q.length + 2,
        P.length + CI.length + Q.length + 2 + CL.length) hlk2
  have h5 := saveRewrite_seg (P ++ m1 :: (CI ++ (Q ++ m2 :: (CL ++ R))))
    ((sortStrings ig).map fun sq => sq ++ ['\n'])
    ((sortStrings lc).map fun sq => sq ++ ['\n'])
    (findSectionIndices (P ++ m1 :: (CI ++ (Q ++ m2 :: (CL ++ R))))) R
    (CI.length + CL.length + 1) (P.length + CI.length + Q.length + 2 + CL.length)
    (((([] ++ P) ++ m1 :: ((sortStrings lc).map fun sq => sq ++ ['\n'])) ++ Q)
      ++ m2 :: ((sortStrings ig).map fun sq => sq ++ ['\n'])) true true
    hdR (fun l h => ⟨pyStrip_ne_ig (hR l h).1, pyStrip_ne_lc (hR l h).2⟩)
  have h6 := saveRewrite_end (P ++ m1 :: (CI ++ (Q ++ m2 :: (CL ++ R))))
    ((sortStrings ig).map fun sq => sq ++ ['\n'])
    ((sortStrings lc).map fun sq => sq ++ ['\n'])
    (findSectionIndices (P ++ m1 :: (CI ++ (Q ++ m2 :: (CL ++ R)))))
    (CI.length + CL.length + 1)
    (P.length + CI.length + Q.length + 2 + CL.length + R.length)
    ((((([] ++ P) ++ m1 :: ((sortStrings lc).map fun sq => sq ++ ['\n'])) ++ Q)
      ++ m2 :: ((sortStrings ig).map fun sq => sq ++ ['\n'])) ++ R) true true
    (by simp only [List.length_append, List.length_cons]; omega)
  have hres : saveRewriteAux (P ++ m1 :: (CI ++ (Q ++ m2 :: (CL ++ R))))
      ((sortStrings ig).map fun sq => sq ++ ['\n'])
      ((sortStrings lc).map fun sq => sq ++ ['\n'])
      (findSectionIndices (P ++ m1 :: (CI ++ (Q ++ m2 :: (CL ++ R)))))
      ((P ++ m1 :: (CI ++ (Q ++ m2 :: (CL ++ R)))).length + 1) 0 [] false false =
      ((((([] ++ P) ++ m1 :: ((sortStrings lc).map fun sq => sq ++ ['\n'])) ++ Q)
        ++ m2 :: ((sortStrings ig).map fun sq => sq ++ ['\n'])) ++ R,
        true, true) := by
    rw [show (P ++ m1 :: (CI ++ (Q ++ m2 :: (CL ++ R)))).length + 1 =
      ((((CI.length + CL.length + 1) + R.length) + 1 + Q.length) + 1 + P.length)
      by simp only [List.length_append, List.length_cons]; omega]
    rw [h1, h2, h3, h4, h5, h6]
  unfold save_caps_data_file
  dsimp only
  rw [hres]
  show appendSection true _ _ _ (appendSection true _ _ _ _) = _
  rw [appendSection_handled, appendSection_handled]
  simp

/-- C3 (amended): the partial-rewrite guarantee holds for well-formed
config files — ones in which each of the two target markers
`# CAP_IGNORE` and `# UPPER_TO_LOWER` occurs exactly once as a
whitespace-stripped line without invisible-character prefixes, the two
sections' content lines are not section markers, and each target
section is terminated by another section marker or the end of file.
For such a file, in either section order, `save_caps_data_file`
replaces exactly the two content ranges by the sorted serialized sets
and copies every other line byte-for-byte, preserving section order;
in particular load-then-save on such a file whose target sections are
already sorted and duplicate-free reproduces it exactly.  (Without the
well-formedness restriction the property fails, see the duplicate
marker counterexample.) -/
theorem claim3_save_partial_rewrite_amended :
    (∀ (ig lc P CI Q CL R : List (List Char)) (m1 m2 : List Char),
      pyStrip m1 = ignoreMarker → pyStrip m2 = lowercaseMarker →
      (∀ l ∈ P, stripBom (pyStrip l) ≠ ignoreMarker ∧
        stripBom (pyStrip l) ≠ lowercaseMarker) →
      (∀ l ∈ Q, stripBom (pyStrip l) ≠ ignoreMarker ∧
        stripBom (pyStrip l) ≠ lowercaseMarker) →
      (∀ l ∈ R, stripBom (pyStrip l) ≠ ignoreMarker ∧
        stripBom (pyStrip l) ≠ lowercaseMarker) →
      (∀ l ∈ CI, stripBom (pyStrip l) ∉ allSectionMarkers) →
      (∀ l ∈ CL, stripBom (pyStrip l) ∉ allSectionMarkers) →
      (Q = [] ∨ ∃ q qs, Q = q :: qs ∧ stripBom (pyStrip q) ∈ allSectionMarkers) →
      (R = [] ∨ ∃ r rs, R = r :: rs ∧ stripBom (pyStrip r) ∈ allSectionMarkers) →
      save_caps_data_file ig lc (P ++ m1 :: (CI ++ (Q ++ m2 :: (CL ++ R)))) =
        P ++ m1 :: (((sortStrings ig).map fun sq => sq ++ ['\n']) ++
          (Q ++ m2 :: (((sortStrings lc).map fun sq => sq ++ ['\n']) ++ R)))) ∧
    (∀ (ig lc P CL Q CI R : List (List Char)) (m1 m2 : List Char),
      pyStrip m1 = lowercaseMarker → pyStrip m2 = ignoreMarker →
      (∀ l ∈ P, stripBom (pyStrip l) ≠ ignoreMarker ∧
        stripBom (pyStrip l) ≠ lowercaseMarker) →
      (∀ l ∈ Q, stripBom (pyStrip l) ≠ ignoreMarker ∧
        stripBom (pyStrip l) ≠ lowercaseMarker) →
      (∀ l ∈ R, stripBom (pyStrip l) ≠ ignoreMarker ∧
        stripBom (pyStrip l) ≠ lowercaseMarker) →
      (∀ l ∈ CL, stripBom (pyStrip l) ∉ allSectionMarkers) →
      (∀ l ∈ CI, stripBom (pyStrip l) ∉ allSectionMarkers) →
      (Q = [] ∨ ∃ q qs, Q = q :: qs ∧ stripBom (pyStrip q) ∈ allSectionMarkers) →
      (R = [] ∨ ∃ r rs, R = r :: rs ∧ stripBom (pyStrip r) ∈ allSectionMarkers) →
      save_caps_data_file ig lc (P ++ m1 :: (CL ++ (Q ++ m2 :: (CI ++ R)))) =
        P ++ m1 :: (((sortStrings lc).map fun sq => sq ++ ['\n']) ++
          (Q ++ m2 :: (((sortStrings ig).map fun sq => sq ++ ['\n']) ++ R)))) ∧
    save_caps_data_file
        (load_data_file (fun _ => false) (some
          [("# CHOICE\n").data, ("colour -> color | colour\n").data,
           ("# CAP_IGNORE\n").data, ("NASA\n").data, ("USA\n").data,
           ("# UPPER_TO_LOWER\n").data, ("CHAPTER\n").data, ("STOP\n").data,
           ("# ROMAN_IGNORE\n").data, ("X\n").data,
           ("# PERIOD_MIDDLE\n").data, ("e.g\n").data]) none).ignoreSet
        (load_data_file (fun _ => false) (some
          [("# CHOICE\n").data, ("colour -> color | colour\n").data,
           ("# CAP_IGNORE\n").data, ("NASA\n").data, ("USA\n").data,
           ("# UPPER_TO_LOWER\n").data, ("CHAPTER\n").data, ("STOP\n").data,
           ("# ROMAN_IGNORE\n").data, ("X\n").data,
           ("# PERIOD_MIDDLE\n").data, ("e.g\n").data]) none).lowercaseSet
        [("# CHOICE\n").data, ("colour -> color | colour\n").data,
         ("# CAP_IGNORE\n").data, ("NASA\n").data, ("USA\n").data,
         ("# UPPER_TO_LOWER\n").data, ("CHAPTER\n").data, ("STOP\n").data,
         ("# ROMAN_IGNORE\n").data, ("X\n").data,
         ("# PERIOD_MIDDLE\n").data, ("e.g\n").data] =
      [("# CHOICE\n").data, ("colour -> color | colour\n").data,
       ("# CAP_IGNORE\n").data, ("NASA\n").data, ("USA\n").data,
       ("# UPPER_TO_LOWER\n").data, ("CHAPTER\n").data, ("STOP\n").data,
       ("# ROMAN_IGNORE\n").data, ("X\n").data,
       ("# PERIOD_MIDDLE\n").data, ("e.g\n").data] :=
  ⟨fun ig lc P CI Q CL R m1 m2 hm1 hm2 hP hQ hR hCI hCL hQ0 hR0 =>
    save_partial_ig_lc ig lc P CI Q CL R m1 m2 hm1 hm2 hP hQ hR hCI hCL hQ0 hR0,
   fun ig lc P CL Q CI R m1 m2 hm1 hm2 hP hQ hR hCL hCI hQ0 hR0 =>
    save_partial_lc_ig ig lc P CL Q CI R m1 m2 hm1 hm2 hP hQ hR hCL hCI hQ0 hR0,
   by decide⟩

/-- Witness for C3 at a concrete well-formed file: the ignore section
holds `OLD`, the set to serialize is `{NEW}`, and saving rewrites just
the two content ranges. -/
theorem claim3_save_witness :
    save_caps_data_file [("NEW").data] [("low").data]
      ([("# CHOICE\n").data, ("a -> b\n").data] ++ ("# CAP_IGNORE\n").data ::
        ([("OLD\n").data] ++ ([] ++ ("# UPPER_TO_LOWER\n").data ::
          ([] ++ [("# ROMAN_IGNORE\n").data, ("X\n").data])))) =
      [("# CHOICE\n").data, ("a -> b\n").data] ++ ("# CAP_IGNORE\n").data ::
        (((sortStrings [("NEW").data]).map fun sq => sq ++ ['\n']) ++
          ([] ++ ("# UPPER_TO_LOWER\n").data ::
            (((sortStrings [("low").data]).map fun sq => sq ++ ['\n']) ++
              [("# ROMAN_IGNORE\n").data, ("X\n").data]))) :=
  claim3_save_partial_rewrite_amended.1 [("NEW").data] [("low").data]
    [("# CHOICE\n").data, ("a -> b\n").data] [("OLD\n").data] []
    [] [("# ROMAN_IGNORE\n").data, ("X\n").data]
    (("# CAP_IGNORE\n").data) (("# UPPER_TO_LOWER\n").data)
    (by decide) (by decide) (by decide) (by decide) (by decide)
    (by decide) (by decide) (Or.inl rfl)
    (Or.inr ⟨("# ROMAN_IGNORE\n").data, [("X\n").data], rfl, by decide⟩)

end Bookfix

